import Mathlib

/-!
# PassFiltEx: the blacklist password filter

A shallow embedding of `PassFiltEx.c`: the evaluation entry point `PasswordFilter`
and one pass of the blacklist loader `BlacklistThreadProc`.

Conventions of the embedding.

* A `wchar_t` or a byte is a natural number; a buffer is the list of its elements.
* A C string is read from a buffer up to its first NUL.  A read or a write that
  leaves the buffer is a `Fault`, not a value.
* `UNICODE_STRING.Length` and `MaximumLength` are byte counts, as in the source;
  a buffer of `n` bytes has `n / 2` elements of type `wchar_t`.
* Calls into the environment (`HeapAlloc`, `CreateFile`, `GetFileTime`, `ReadFile`)
  and the read of a link in a node that was just released are answered by
  explicit parameters.  The tracing calls (`EventWriteStringW2`),
  the performance counters and the critical section have no effect on the values
  modelled here and are left out.
* `MAX_BLACKLIST_STRING_SIZE` is declared in `PassFiltEx.h`; it is a parameter
  (`MAX`) of every definition that uses it.
-/

namespace PassFiltEx

/-! ## Faults -/

/-- Ways in which an execution leaves the defined behaviour of the C program. -/
inductive Fault where
  /-- A NULL pointer is dereferenced. -/
  | nullPointer
  /-- An index, a copy or a string scan leaves the bounds of its buffer. -/
  | outOfRange
  /-- Memory that was handed back to the heap is walked again. -/
  | useAfterFree
  /-- The iteration budget of a loop model is used up (never reached from
  `PasswordFilter`, see `lowerLoop_fuel`). -/
  | outOfFuel
  deriving DecidableEq, Repr

deriving instance DecidableEq for Except

set_option maxRecDepth 100000

/-! ## C library functions -/

/-- The function `towlower` in the "C" locale (the program never calls `setlocale`):
only `A`..`Z` are mapped. -/
def towlower (c : Nat) : Nat :=
  if 0x41 ≤ c ∧ c ≤ 0x5A then c + 0x20 else c

/-- The characters of the C string held in a buffer: everything before the first
NUL.  A buffer without a NUL makes the scan run past its end. -/
def cstr : List Nat → Except Fault (List Nat)
  | [] => .error .outOfRange
  | c :: rest =>
    if c = 0 then .ok []
    else
      match cstr rest with
      | .ok s => .ok (c :: s)
      | .error e => .error e

/-- The function `wcslen`: the number of characters before the first NUL. -/
def wcslen (buf : List Nat) : Except Fault Nat :=
  match cstr buf with
  | .ok s => .ok s.length
  | .error e => .error e

/-- Does `needle` occur in `hay` as a contiguous block?  The search of `wcsstr`:
try every start position from the left. -/
def occursIn (needle : List Nat) : List Nat → Bool
  | [] => needle.isEmpty
  | c :: rest => needle.isPrefixOf (c :: rest) || occursIn needle rest

/-- The test `wcsstr(hay, needle) != NULL` on two buffers. -/
def wcsstr (hay needle : List Nat) : Except Fault Bool :=
  match cstr hay with
  | .error e => .error e
  | .ok h =>
    match cstr needle with
    | .error e => .error e
    | .ok n => .ok (occursIn n h)

/-- The function `memcpy(dst, src, n)` with `n` counted in elements: the first `n`
elements of `dst` are replaced by those of `src`. -/
def memcpy (dst src : List Nat) (n : Nat) : Except Fault (List Nat) :=
  if n ≤ dst.length ∧ n ≤ src.length then .ok (src.take n ++ dst.drop n)
  else .error .outOfRange

/-- The function `SecureZeroMemory(buf, n)` with `n` counted in elements. -/
def SecureZeroMemory (buf : List Nat) (n : Nat) : List Nat :=
  List.replicate (min n buf.length) 0 ++ buf.drop n

/-- The comparison `((float)a / (float)b) >= 0.50f`.  Both operands are string
lengths below `2^16`, which `float` represents exactly; the quotient is rounded
to nearest and `0.5` is a `float`, so for `b > 0` the comparison holds exactly
when `b ≤ 2 * a`.  For `b = 0` the quotient is `+inf` when `a > 0` (the comparison
holds) and NaN when `a = 0` (it does not). -/
def ratioAtLeastHalf (a b : Nat) : Bool :=
  if b = 0 then decide (a ≠ 0) else decide (b ≤ 2 * a)

/-! ## Data -/

/-- A counted string of the host: `Buffer` holds the `Length / 2` characters,
`MaximumLength` is the size in bytes of the storage behind them. -/
structure UNICODE_STRING where
  Buffer : List Nat
  MaximumLength : Nat
  deriving DecidableEq, Repr

/-- The field `Length`, in bytes. -/
def UNICODE_STRING.Length (s : UNICODE_STRING) : Nat := 2 * s.Buffer.length

/-- A node of the blacklist: `String` is the whole array `wchar_t String[MAX]`.
The link `Next` is the position of the node in the list that holds it. -/
structure BADSTRING where
  String : List Nat
  deriving DecidableEq, Repr

/-- The global `gBlacklistHead` together with the chain that hangs off it. -/
inductive Head where
  /-- The pointer is NULL: no rebuild has allocated the head yet. -/
  | null
  /-- The head node is allocated and `nodes` are the nodes reached through `Next`. -/
  | valid (nodes : List BADSTRING)
  /-- The head node is allocated, but its `Next` still points to nodes that were
  released by the clearing loop (the rebuild stopped before relinking). -/
  | freed
  deriving DecidableEq, Repr

/-- What one call of `PasswordFilter` leaves behind. -/
structure Outcome where
  /-- The returned `BOOL`: `true` accepts the password. -/
  PasswordIsOK : Bool
  /-- The contents of `PasswordCopy` when it is handed to `HeapFree`; `none` when
  the buffer was never allocated. -/
  released : Option (List Nat)
  deriving DecidableEq, Repr

/-! ## PasswordFilter -/

/-- The case-folding loop
`for (unsigned int Counter = 0; Counter < wcslen(PasswordCopy) - 1; Counter++)`.
The bound is computed in `size_t`, so `wcslen(..) - 1` wraps for the empty string.
`Counter` stays within the buffer, whose size is a `USHORT`, so the increment of
the `unsigned int` does not wrap.  The first argument bounds the number of
iterations; `PasswordFilter` passes one more than the size of the buffer, which
is never used up (`lowerLoop_fuel`). -/
def lowerLoop : Nat → Nat → List Nat → Except Fault (List Nat)
  | 0, _, _ => .error .outOfFuel
  | fuel + 1, Counter, PasswordCopy =>
    match wcslen PasswordCopy with
    | .error e => .error e
    | .ok len =>
      if Counter < (len + 2 ^ 64 - 1) % 2 ^ 64 then
        match PasswordCopy[Counter]? with
        | none => .error .outOfRange
        | some c => lowerLoop fuel (Counter + 1) (PasswordCopy.set Counter (towlower c))
      else .ok PasswordCopy

/-- The loop `while (CurrentNode->Next != NULL)` over the nodes behind the head:
`true` when no token rejects the password (`PasswordIsOK` stays `TRUE`). -/
def scanBlacklist (PasswordCopy : List Nat) : List BADSTRING → Except Fault Bool
  | [] => .ok true
  | CurrentNode :: rest =>
    match wcslen CurrentNode.String with
    | .error e => .error e
    | .ok tokenLen =>
      if tokenLen = 0 then scanBlacklist PasswordCopy rest
      else
        match wcsstr PasswordCopy CurrentNode.String with
        | .error e => .error e
        | .ok false => scanBlacklist PasswordCopy rest
        | .ok true =>
          match wcslen PasswordCopy with
          | .error e => .error e
          | .ok passwordLen =>
            if ratioAtLeastHalf tokenLen passwordLen then .ok false
            else scanBlacklist PasswordCopy rest

set_option linter.unusedVariables false in
/-- The function `PasswordFilter`.  `FullName` is unreferenced and `SetOperation` only
selects the text of a trace message.  `heapAllocOk` tells whether the `HeapAlloc` of
`PasswordCopy` succeeds. -/
def PasswordFilter (gBlacklistHead : Head) (AccountName FullName Password : UNICODE_STRING)
    (SetOperation : Bool) (heapAllocOk : Bool) : Except Fault Outcome :=
  -- wchar_t AccountNameCopy[128] = { 0 }; memcpy(&AccountNameCopy, ...)
  match memcpy (List.replicate 128 0) AccountName.Buffer (AccountName.Length / 2) with
  | .error e => .error e
  | .ok _ =>
    if heapAllocOk = false then .ok { PasswordIsOK := false, released := none }
    else
      -- HeapAlloc(.., HEAP_ZERO_MEMORY, Password->MaximumLength), then memcpy
      match memcpy (List.replicate (Password.MaximumLength / 2) 0) Password.Buffer
          (Password.Length / 2) with
      | .error e => .error e
      | .ok copied =>
        match lowerLoop (copied.length + 1) 0 copied with
        | .error e => .error e
        | .ok PasswordCopy =>
          match gBlacklistHead with
          | .null => .error .nullPointer
          | .freed => .error .useAfterFree
          | .valid nodes =>
            match scanBlacklist PasswordCopy nodes with
            | .error e => .error e
            | .ok PasswordIsOK =>
              .ok { PasswordIsOK := PasswordIsOK,
                    released := some (SecureZeroMemory PasswordCopy (Password.Length / 2)) }

/-- The decision of a call: the returned `BOOL`, or the fault that ended the call. -/
def decision (r : Except Fault Outcome) : Except Fault Bool :=
  match r with
  | .ok o => .ok o.PasswordIsOK
  | .error e => .error e

/-! ## BlacklistThreadProc -/

/-- The globals written by the loader. `FILETIME` values are compared as 64-bit
numbers by `CompareFileTime`; all three globals start as zero. -/
structure Globals where
  gBlacklistHead : Head
  gBlackListOldFileTime : Nat
  gBlackListNewFileTime : Nat
  deriving DecidableEq, Repr

/-- The zero-initialised globals of a freshly loaded library. -/
def Globals.initial : Globals :=
  { gBlacklistHead := .null, gBlackListOldFileTime := 0, gBlackListNewFileTime := 0 }

/-- What the environment answers during one pass of the loader loop. -/
structure Cycle where
  /-- The call `CreateFile` returned a handle. -/
  openOk : Bool
  /-- The last-write time stored by `GetFileTime`; `none` when the call failed. -/
  fileTime : Option Nat
  /-- The bytes that `ReadFile` delivers, one per call, before it reports the end
  of the file or an error. -/
  content : List Nat
  /-- The number of `HeapAlloc` calls of this pass that succeed before one fails;
  `none` when none fails. -/
  allocs : Option Nat
  /-- The answer to the read of `CurrentNode->Next` on a node that the clearing loop
  has just passed to `HeapFree`: `true` when the heap has left the released block
  as it was, so that the read delivers the link stored there. -/
  releasedLinkReadable : Bool
  deriving DecidableEq, Repr

/-- One call `HeapAlloc(.., HEAP_ZERO_MEMORY, sizeof(BADSTRING))` against the budget of
the pass: `none` when it returns NULL, otherwise the budget that is left. -/
def HeapAlloc : Option Nat → Option (Option Nat)
  | none => some none
  | some 0 => none
  | some (n + 1) => some (some n)

/-- A node as `HEAP_ZERO_MEMORY` delivers it. -/
def zeroNode (MAX : Nat) : BADSTRING := { String := List.replicate MAX 0 }

/-- The byte loop `while (TRUE) { ReadFile(.., &Read, 1, ..) .. }`, started with the
bytes still to be read, the allocation budget, the node being filled and
`BytesOnThisLine`.  The result is the chain that starts at that node when the loop
is left, either by `break` at the end of the file or by `goto Sleep` after a
failed allocation.  The counters `TotalBytesRead` and `LinesRead` only feed a trace
message and are left out. -/
def readLoop (MAX : Nat) : List Nat → Option Nat → BADSTRING → Nat → List BADSTRING
  | [], _, CurrentNode, _ => [CurrentNode]
  | byte :: rest, allocs, CurrentNode, BytesOnThisLine =>
    let Read := if MAX - 1 ≤ BytesOnThisLine then 0x0A else byte
    if Read < 0x20 ∧ Read ≠ 0x0A then
      readLoop MAX rest allocs CurrentNode BytesOnThisLine
    else if Read = 0x0A then
      match HeapAlloc allocs with
      | none => [CurrentNode]
      | some allocs => CurrentNode :: readLoop MAX rest allocs (zeroNode MAX) 0
    else
      readLoop MAX rest allocs
        { String := CurrentNode.String.set BytesOnThisLine (towlower Read) }
        (BytesOnThisLine + 1)

/-- The clearing loop
`while (CurrentNode->Next != NULL) { CurrentNode = CurrentNode->Next; HeapFree(.., CurrentNode) .. }`
over the nodes behind the head.  After the release of a node the loop test reads
the link of that very node, which is released memory: the walk goes on when the
environment answers that the link is still readable and is a fault otherwise.
A list without nodes is left without any such read.  `HeapFree` of a node that
`HeapAlloc` delivered is taken to succeed. -/
def clearLoop (releasedLinkReadable : Bool) : List BADSTRING → Except Fault Unit
  | [] => .ok ()
  | _ :: rest =>
    if releasedLinkReadable = true then clearLoop releasedLinkReadable rest
    else .error .useAfterFree

/-- The code after the label `Sleep:`. -/
def Sleep (g : Globals) : Globals :=
  { g with gBlackListOldFileTime := g.gBlackListNewFileTime }

/-- One pass of the loop of `BlacklistThreadProc`.  The clearing loop (`clearLoop`)
releases every node behind the head; its reads of released links are answered by
the environment.  Walking a chain that an earlier pass already released is a
fault.  A failed `GetFileTime` is taken to leave `gBlackListNewFileTime` as it
was. -/
def BlacklistThreadProc (MAX : Nat) (g : Globals) (e : Cycle) : Except Fault Globals :=
  if e.openOk = false then .ok (Sleep g)
  else
    match e.fileTime with
    | none => .ok (Sleep g)
    | some t =>
      let g := { g with gBlackListNewFileTime := t }
      if t = g.gBlackListOldFileTime then .ok (Sleep g)
      else
        -- if (gBlacklistHead == NULL) allocate the head
        let headed : Option (Head × Option Nat) :=
          match g.gBlacklistHead with
          | .null =>
            match HeapAlloc e.allocs with
            | none => none
            | some allocs => some (.valid [], allocs)
          | head => some (head, e.allocs)
        match headed with
        | none => .ok (Sleep g)
        | some (.null, _) => .error .nullPointer
        | some (.freed, _) => .error .useAfterFree
        | some (.valid old, allocs) =>
          -- the old nodes are released
          match clearLoop e.releasedLinkReadable old with
          | .error f => .error f
          | .ok _ =>
            -- allocate the node of the first line
            match HeapAlloc allocs with
            | none =>
              .ok (Sleep { g with gBlacklistHead := if old = [] then .valid [] else .freed })
            | some allocs =>
              .ok (Sleep { g with
                gBlacklistHead := .valid (readLoop MAX e.content allocs (zeroNode MAX) 0) })

/-- The loader loop over a sequence of passes. -/
def runCycles (MAX : Nat) : Globals → List Cycle → Except Fault Globals
  | g, [] => .ok g
  | g, e :: rest =>
    match BlacklistThreadProc MAX g e with
    | .error f => .error f
    | .ok g => runCycles MAX g rest

/-- The list that a rebuild without allocation failure makes of a file. -/
def parse (MAX : Nat) (content : List Nat) : List BADSTRING :=
  readLoop MAX content none (zeroNode MAX) 0

/-! ## Notions used to state the properties -/

/-- A string with all characters but the last one folded to lower case. -/
def foldButLast (s : List Nat) : List Nat :=
  (s.take (s.length - 1)).map towlower ++ s.drop (s.length - 1)

/-- The node holds the empty token: `wcslen(String) == 0`. -/
def BADSTRING.isBlank (n : BADSTRING) : Bool := decide (wcslen n.String = .ok 0)

/-- The working copy that `PasswordFilter` matches against the tokens, for a
password of at least one character that fits its storage with a terminator. -/
def workingCopy (Password : UNICODE_STRING) : List Nat :=
  foldButLast Password.Buffer
    ++ 0 :: List.replicate (Password.MaximumLength / 2 - Password.Buffer.length - 1) 0

/-- A file with every line feed replaced by carriage return, line feed. -/
def crlf : List Nat → List Nat
  | [] => []
  | b :: rest => if b = 0x0A then 0x0D :: 0x0A :: crlf rest else b :: crlf rest

/-- The loop of `scanBlacklist` with a record of the divisions it performs: one pair
`(wcslen(CurrentNode->String), wcslen(PasswordCopy))` for every evaluation of the
ratio, in the order of the evaluations. -/
def scanBlacklistTrace (PasswordCopy : List Nat) :
    List BADSTRING → List (Nat × Nat) × Except Fault Bool
  | [] => ([], .ok true)
  | CurrentNode :: rest =>
    match wcslen CurrentNode.String with
    | .error e => ([], .error e)
    | .ok tokenLen =>
      if tokenLen = 0 then scanBlacklistTrace PasswordCopy rest
      else
        match wcsstr PasswordCopy CurrentNode.String with
        | .error e => ([], .error e)
        | .ok false => scanBlacklistTrace PasswordCopy rest
        | .ok true =>
          match wcslen PasswordCopy with
          | .error e => ([], .error e)
          | .ok passwordLen =>
            if ratioAtLeastHalf tokenLen passwordLen then
              ([(tokenLen, passwordLen)], .ok false)
            else
              ((tokenLen, passwordLen) :: (scanBlacklistTrace PasswordCopy rest).1,
                (scanBlacklistTrace PasswordCopy rest).2)

/-- The token of the node rejects the password with the characters `h`: it is not
empty, it occurs in `h` and it makes up at least half of `h`. -/
def BADSTRING.rejects (h : List Nat) (n : BADSTRING) : Bool :=
  match cstr n.String with
  | .ok T => !T.isEmpty && occursIn T h && ratioAtLeastHalf T.length h.length
  | .error _ => false

/-! ## Helpers for writing inputs -/

/-- The code units of a string. -/
def wstr (s : String) : List Nat := s.toList.map Char.toNat

/-- A counted string with room for exactly one terminating NUL. -/
def ustr (s : String) : UNICODE_STRING :=
  { Buffer := wstr s, MaximumLength := 2 * (wstr s).length + 2 }

/-- A blacklist node whose array of `MAX` elements holds `s` followed by NULs. -/
def node (MAX : Nat) (s : List Nat) : BADSTRING :=
  { String := s ++ List.replicate (MAX - s.length) 0 }

/-! ## Lemmas on the C library model -/

theorem towlower_zero : towlower 0 = 0 := by decide

theorem towlower_ne_zero {c : Nat} (h : c ≠ 0) : towlower c ≠ 0 := by
  unfold towlower
  split <;> omega

theorem cstr_append_nul (s tail : List Nat) (h : 0 ∉ s) :
    cstr (s ++ 0 :: tail) = .ok s := by
  induction s with
  | nil => simp [cstr]
  | cons c s ih =>
    have hc : c ≠ 0 := fun h0 => h (by simp [h0])
    have hs : 0 ∉ s := fun h0 => h (by simp [h0])
    simp [cstr, hc, ih hs]

theorem wcslen_append_nul (s tail : List Nat) (h : 0 ∉ s) :
    wcslen (s ++ 0 :: tail) = .ok s.length := by
  simp [wcslen, cstr_append_nul s tail h]

theorem occursIn_iff (needle hay : List Nat) :
    occursIn needle hay = true ↔ needle <:+: hay := by
  induction hay with
  | nil => simp [occursIn]
  | cons c rest ih =>
    simp only [occursIn, Bool.or_eq_true, ih, List.isPrefixOf_iff_prefix]
    rw [List.infix_cons_iff]

theorem cstr_error (buf : List Nat) : ∀ (e : Fault), cstr buf = .error e → e = .outOfRange := by
  induction buf with
  | nil => intro e h; simp [cstr] at h; exact h.symm
  | cons c rest ih =>
    intro e h
    rw [cstr] at h
    by_cases hc : c = 0
    · simp [hc] at h
    · rw [if_neg hc] at h
      cases hr : cstr rest with
      | ok s => rw [hr] at h; simp at h
      | error e2 =>
        rw [hr] at h
        simp only [Except.error.injEq] at h
        rw [← h]; exact ih e2 hr

theorem wcslen_error (buf : List Nat) (e : Fault) (h : wcslen buf = .error e) :
    e = .outOfRange := by
  unfold wcslen at h
  cases hr : cstr buf with
  | ok s => rw [hr] at h; simp at h
  | error e2 =>
    rw [hr] at h
    simp only [Except.error.injEq] at h
    rw [← h]; exact cstr_error buf e2 hr

/-- The iteration budget that `PasswordFilter` gives to the case-folding loop is
never used up: the loop ends by its test or by a fault of the C program. -/
theorem lowerLoop_fuel : ∀ (fuel Counter : Nat) (buf : List Nat),
    buf.length - Counter < fuel → lowerLoop fuel Counter buf ≠ .error .outOfFuel := by
  intro fuel
  induction fuel with
  | zero => intro k buf h; omega
  | succ fuel ih =>
    intro k buf hfuel
    rw [lowerLoop]
    cases hw : wcslen buf with
    | error e => rw [wcslen_error buf e hw]; simp
    | ok len =>
      simp only []
      split
      · cases hget : buf[k]? with
        | none => simp
        | some c =>
          simp only []
          have hk : k < buf.length := by
            rcases List.getElem?_eq_some_iff.mp hget with ⟨h, _⟩
            exact h
          exact ih (k + 1) _ (by rw [List.length_set]; omega)
      · simp

/-- The bound `wcslen(PasswordCopy) - 1` of the case-folding loop for a string of
at least one character. -/
theorem loop_bound (len : Nat) (h1 : 1 ≤ len) (h2 : len < 2 ^ 64) :
    (len + 2 ^ 64 - 1) % 2 ^ 64 = len - 1 := by
  omega

/-- The case-folding loop on a terminated buffer: started at `Counter = pre.length`
with a non-empty rest `suf` of the string, it folds all of `suf` but its last
character and stops. -/
theorem lowerLoop_run (suf : List Nat) : ∀ (pre tail : List Nat) (fuel : Nat),
    0 ∉ pre → 0 ∉ suf → suf ≠ [] → pre.length + suf.length < 2 ^ 64 → suf.length ≤ fuel →
    lowerLoop fuel pre.length (pre ++ suf ++ 0 :: tail)
      = .ok (pre ++ (suf.take (suf.length - 1)).map towlower
              ++ suf.drop (suf.length - 1) ++ 0 :: tail) := by
  induction suf with
  | nil => intro _ _ _ _ _ h; exact absurd rfl h
  | cons c suf ih =>
    intro pre tail fuel hpre hsuf _ hlen hfuel
    obtain ⟨fuel, rfl⟩ : ∃ f, fuel = f + 1 := ⟨fuel - 1, by simp at hfuel; omega⟩
    have hc : c ≠ 0 := fun h0 => hsuf (by simp [h0])
    have hs : 0 ∉ suf := fun h0 => hsuf (by simp [h0])
    have h0 : 0 ∉ pre ++ c :: suf := by
      simp only [List.mem_append, not_or]; exact ⟨hpre, hsuf⟩
    have hw : wcslen (pre ++ (c :: suf) ++ 0 :: tail)
        = .ok (pre.length + (suf.length + 1)) := by
      rw [wcslen_append_nul _ _ h0]; simp
    simp only [List.length_cons] at hlen hfuel
    rw [lowerLoop, hw]
    simp only []
    rw [loop_bound _ (by omega) (by omega)]
    by_cases hnil : suf = []
    · subst hnil
      simp
    · have hpos : 0 < suf.length := List.length_pos.mpr hnil
      have hlt : pre.length < pre.length + (suf.length + 1) - 1 := by omega
      rw [if_pos hlt]
      have hget : (pre ++ (c :: suf) ++ 0 :: tail)[pre.length]? = some c := by
        rw [List.append_assoc, List.getElem?_append_right (le_refl _)]
        simp
      rw [hget]
      simp only []
      have hset : (pre ++ (c :: suf) ++ 0 :: tail).set pre.length (towlower c)
          = (pre ++ [towlower c]) ++ suf ++ 0 :: tail := by
        simp
      rw [hset]
      have hpre2 : 0 ∉ pre ++ [towlower c] := by
        simp only [List.mem_append, List.mem_singleton, not_or]
        exact ⟨hpre, fun h => towlower_ne_zero hc h.symm⟩
      have := ih (pre ++ [towlower c]) tail fuel hpre2 hs hnil
        (by simp; omega) (by omega)
      simp only [List.length_append, List.length_singleton] at this
      rw [this]
      obtain ⟨n, hn⟩ : ∃ n, suf.length = n + 1 := ⟨suf.length - 1, by omega⟩
      simp [hn]

/-- The case-folding loop on the zeroed buffer of an empty password walks off the
end of the buffer. -/
theorem lowerLoop_zeros (n : Nat) (hn : n < 2 ^ 64 - 1) : ∀ (fuel k : Nat),
    k ≤ n → n - k < fuel → lowerLoop fuel k (List.replicate n 0) = .error .outOfRange := by
  intro fuel
  induction fuel with
  | zero => intro k _ h; omega
  | succ fuel ih =>
    intro k hk hfuel
    rw [lowerLoop]
    cases n with
    | zero => simp [wcslen, cstr]
    | succ n =>
      have hw : wcslen (List.replicate (n + 1) 0) = .ok 0 := by
        simp [wcslen, cstr, List.replicate_succ]
      rw [hw]
      simp only []
      have hb : k < (0 + 2 ^ 64 - 1) % 2 ^ 64 := by omega
      rw [if_pos hb]
      by_cases hkn : k < n + 1
      · have hget : (List.replicate (n + 1) 0)[k]? = some 0 := by
          simp [List.getElem?_replicate, hkn]
        rw [hget]
        simp only [towlower_zero]
        have hset : (List.replicate (n + 1) 0).set k 0 = List.replicate (n + 1) 0 := by
          apply List.ext_getElem?
          intro i
          simp only [List.getElem?_set, List.getElem?_replicate, List.length_replicate]
          split <;> simp_all
        rw [hset]
        exact ih (k + 1) (by omega) (by omega)
      · have hget : (List.replicate (n + 1) 0)[k]? = none := by
          simp [List.getElem?_replicate, hkn]
        rw [hget]

/-- The copy of a password that fits its storage with a terminator. -/
theorem memcpy_password (P : UNICODE_STRING) (hroom : P.Length + 2 ≤ P.MaximumLength) :
    memcpy (List.replicate (P.MaximumLength / 2) 0) P.Buffer (P.Length / 2)
      = .ok (P.Buffer ++ 0 :: List.replicate (P.MaximumLength / 2 - P.Buffer.length - 1) 0) := by
  unfold UNICODE_STRING.Length at hroom
  have h2 : P.Length / 2 = P.Buffer.length := by
    unfold UNICODE_STRING.Length; omega
  rw [h2]
  unfold memcpy
  have hle : P.Buffer.length ≤ (List.replicate (P.MaximumLength / 2) 0).length
      ∧ P.Buffer.length ≤ P.Buffer.length := by
    simp; omega
  rw [if_pos hle]
  obtain ⟨k, hk⟩ : ∃ k, P.MaximumLength / 2 - P.Buffer.length = k + 1 :=
    ⟨P.MaximumLength / 2 - P.Buffer.length - 1, by omega⟩
  simp [hk, List.replicate_succ]

/-- The copy of the account name into `AccountNameCopy[128]` stays in range for a
name of at most 256 bytes. -/
theorem memcpy_account (A : UNICODE_STRING) (hacc : A.Length ≤ 256) :
    ∃ c, memcpy (List.replicate 128 0) A.Buffer (A.Length / 2) = .ok c := by
  unfold UNICODE_STRING.Length at *
  unfold memcpy
  refine ⟨_, if_pos ?_⟩
  simp; omega

/-- For a password of at least one character, without NUL, that fits its storage
with a terminator, `PasswordFilter` reaches the token loop with `workingCopy`. -/
theorem PasswordFilter_valid (L : List BADSTRING) (A F P : UNICODE_STRING) (S : Bool)
    (hacc : A.Length ≤ 256) (hne : P.Buffer ≠ []) (hnul : 0 ∉ P.Buffer)
    (hroom : P.Length + 2 ≤ P.MaximumLength) (hmax : P.MaximumLength < 2 ^ 16) :
    PasswordFilter (.valid L) A F P S true
      = match scanBlacklist (workingCopy P) L with
        | .error e => .error e
        | .ok b => .ok { PasswordIsOK := b,
                         released := some (SecureZeroMemory (workingCopy P) (P.Length / 2)) } := by
  obtain ⟨c, hc⟩ := memcpy_account A hacc
  have hlen : P.Buffer.length < 2 ^ 64 := by
    have : P.Buffer.length < 2 ^ 16 := by
      unfold UNICODE_STRING.Length at hroom; omega
    omega
  have hrun := lowerLoop_run P.Buffer [] (
      List.replicate (P.MaximumLength / 2 - P.Buffer.length - 1) 0)
    ((P.Buffer ++ 0 :: List.replicate (P.MaximumLength / 2 - P.Buffer.length - 1) 0).length + 1)
    (by simp) hnul hne (by simpa using hlen) (by simp; omega)
  simp only [List.nil_append, List.length_nil] at hrun
  unfold PasswordFilter
  rw [hc, memcpy_password P hroom]
  simp only [Bool.true_eq_false, if_false]
  rw [hrun]
  rfl

theorem cstr_workingCopy (P : UNICODE_STRING) (hnul : 0 ∉ P.Buffer) :
    cstr (workingCopy P) = .ok (foldButLast P.Buffer) := by
  unfold workingCopy
  apply cstr_append_nul
  unfold foldButLast
  simp only [List.mem_append, List.mem_map, not_or, not_exists, not_and]
  constructor
  · intro x hx h
    have : x ≠ 0 := fun h0 => hnul (h0 ▸ List.mem_of_mem_take hx)
    exact towlower_ne_zero this h
  · intro h
    exact hnul (List.mem_of_mem_drop h)

theorem foldButLast_length (s : List Nat) : (foldButLast s).length = s.length := by
  unfold foldButLast
  simp

theorem foldButLast_of_lower (s : List Nat) (h : ∀ c ∈ s, towlower c = c) :
    foldButLast s = s := by
  unfold foldButLast
  have : (s.take (s.length - 1)).map towlower = s.take (s.length - 1) := by
    conv_rhs => rw [← List.map_id (s.take (s.length - 1))]
    apply List.map_congr_left
    intro a ha
    simpa using h a (List.mem_of_mem_take ha)
  rw [this, List.take_append_drop]

/-- Blank nodes do not take part in the decision. -/
theorem scanBlacklist_filter (pc : List Nat) (L : List BADSTRING) :
    scanBlacklist pc (L.filter (fun n => !n.isBlank)) = scanBlacklist pc L := by
  induction L with
  | nil => rfl
  | cons n L ih =>
    by_cases hb : wcslen n.String = .ok 0
    · have : n.isBlank = true := by simp [BADSTRING.isBlank, hb]
      rw [List.filter_cons_of_neg (by simp [this])]
      rw [ih, scanBlacklist, hb]
      simp
    · have : n.isBlank = false := by simp [BADSTRING.isBlank, hb]
      rw [List.filter_cons_of_pos (by simp [this])]
      rw [scanBlacklist, scanBlacklist, ih]

/-- The outcome of `PasswordFilter` does not depend on the blank nodes of the list. -/
theorem PasswordFilter_filter (L : List BADSTRING) (A F P : UNICODE_STRING) (S ok : Bool) :
    PasswordFilter (.valid (L.filter (fun n => !n.isBlank))) A F P S ok
      = PasswordFilter (.valid L) A F P S ok := by
  unfold PasswordFilter
  simp only [scanBlacklist_filter]

/-! ## The decision rule of PasswordFilter -/

/-- C1, evaluated on the code: with the single token "abc", the password "ABC" is
accepted, although its lowercased form contains the token and the token makes up
the whole password.  The case-folding loop stops one character early, so the
working copy is "abC". -/
theorem uppercase_last_char_accepted :
    decision (PasswordFilter (.valid [node 32 (wstr "abc")])
        (ustr "user") (ustr "User") (ustr "ABC") false true) = .ok true
    ∧ occursIn (wstr "abc") ((wstr "ABC").map towlower) = true
    ∧ ratioAtLeastHalf (wstr "abc").length (wstr "ABC").length = true := by
  decide

/-- C2: with a single non-empty token `T` in the list and an all-lowercase password
`P` that contains `T`, `PasswordFilter` rejects `P` exactly when
`2 * length T ≥ length P`, and accepts it otherwise. -/
theorem ratio_threshold (n : BADSTRING) (T : List Nat)
    (AccountName FullName P : UNICODE_STRING) (SetOperation : Bool)
    (hn : cstr n.String = .ok T) (hT : T ≠ [])
    (hlow : ∀ c ∈ P.Buffer, towlower c = c) (hsub : T <:+: P.Buffer)
    (hnul : 0 ∉ P.Buffer) (hroom : P.Length + 2 ≤ P.MaximumLength)
    (hmax : P.MaximumLength < 2 ^ 16) (hacc : AccountName.Length ≤ 256) :
    decision (PasswordFilter (.valid [n]) AccountName FullName P SetOperation true)
      = .ok (!decide (2 * T.length ≥ P.Buffer.length)) := by
  have hTlen : 0 < T.length := List.length_pos.mpr hT
  have hPlen : T.length ≤ P.Buffer.length := hsub.length_le
  have hne : P.Buffer ≠ [] := by
    intro h
    rw [h, List.length_nil] at hPlen
    omega
  rw [PasswordFilter_valid [n] AccountName FullName P SetOperation hacc hne hnul hroom hmax]
  have hc := cstr_workingCopy P hnul
  rw [foldButLast_of_lower _ hlow] at hc
  have hocc : occursIn T P.Buffer = true := (occursIn_iff _ _).mpr hsub
  have hscan : scanBlacklist (workingCopy P) [n]
      = .ok (!decide (2 * T.length ≥ P.Buffer.length)) := by
    simp only [scanBlacklist, wcslen, wcsstr, hn, hc, hocc, ratioAtLeastHalf]
    have h1 : T.length ≠ 0 := by omega
    have h2 : P.Buffer.length ≠ 0 := by omega
    simp only [h1, h2, if_false]
    by_cases h : P.Buffer.length ≤ 2 * T.length <;> simp [h]
  rw [hscan]
  rfl

/-- C2 at the boundary: with the token "abc", "abcdef" is rejected and "abcdefg"
is accepted. -/
theorem ratio_threshold_witness :
    decision (PasswordFilter (.valid [node 32 (wstr "abc")])
        (ustr "user") (ustr "User") (ustr "abcdef") false true) = .ok false
    ∧ decision (PasswordFilter (.valid [node 32 (wstr "abc")])
        (ustr "user") (ustr "User") (ustr "abcdefg") false true) = .ok true :=
  ⟨ratio_threshold (node 32 (wstr "abc")) (wstr "abc") (ustr "user") (ustr "User")
      (ustr "abcdef") false (by decide) (by decide) (by decide) (by decide) (by decide)
      (by decide) (by decide) (by decide),
   ratio_threshold (node 32 (wstr "abc")) (wstr "abc") (ustr "user") (ustr "User")
      (ustr "abcdefg") false (by decide) (by decide) (by decide) (by decide) (by decide)
      (by decide) (by decide) (by decide)⟩

/-- C3, evaluated on the code: "abC" and "abc" differ only in the case of the last
letter, yet with the token "abc" the first is accepted and the second rejected. -/
theorem last_char_case_changes_decision :
    decision (PasswordFilter (.valid [node 32 (wstr "abc")])
        (ustr "user") (ustr "User") (ustr "abC") false true) = .ok true
    ∧ decision (PasswordFilter (.valid [node 32 (wstr "abc")])
        (ustr "user") (ustr "User") (ustr "abc") false true) = .ok false
    ∧ (wstr "abC").map towlower = (wstr "abc").map towlower := by
  decide

/-- C4: an empty token never matches.  The outcome of `PasswordFilter` against a
list equals its outcome against the list without the zero-length tokens, and a
list of zero-length tokens only accepts every non-empty password. -/
theorem blank_tokens_never_match (L : List BADSTRING)
    (AccountName FullName P : UNICODE_STRING) (SetOperation heapAllocOk : Bool) :
    PasswordFilter (.valid L) AccountName FullName P SetOperation heapAllocOk
      = PasswordFilter (.valid (L.filter (fun n => !n.isBlank)))
          AccountName FullName P SetOperation heapAllocOk
    ∧ ((∀ n ∈ L, n.isBlank = true) → P.Buffer ≠ [] → 0 ∉ P.Buffer →
        P.Length + 2 ≤ P.MaximumLength → P.MaximumLength < 2 ^ 16 →
        AccountName.Length ≤ 256 →
        decision (PasswordFilter (.valid L) AccountName FullName P SetOperation true)
          = .ok true) := by
  constructor
  · exact (PasswordFilter_filter L AccountName FullName P SetOperation heapAllocOk).symm
  · intro hall hne hnul hroom hmax hacc
    rw [PasswordFilter_valid L AccountName FullName P SetOperation hacc hne hnul hroom hmax]
    rw [← scanBlacklist_filter]
    have : L.filter (fun n => !n.isBlank) = [] := by
      rw [List.filter_eq_nil_iff]
      intro n hn
      simp [hall n hn]
    rw [this]
    rfl

/-- C4 on a file of three blank lines and the password "Secret1". -/
theorem blank_tokens_never_match_witness :
    decision (PasswordFilter (.valid (parse 32 [0x0A, 0x0A, 0x0A]))
        (ustr "user") (ustr "User") (ustr "Secret1") false true) = .ok true :=
  (blank_tokens_never_match (parse 32 [0x0A, 0x0A, 0x0A]) (ustr "user") (ustr "User")
    (ustr "Secret1") false true).2 (by decide) (by decide) (by decide) (by decide)
    (by decide) (by decide)

/-- C5, evaluated on the code: for the zero-length password the loop bound
`wcslen(PasswordCopy) - 1` wraps to `SIZE_MAX`, so the case-folding loop indexes
past the end of its buffer whatever the token list and the size of the buffer;
the call does not return accept. -/
theorem empty_password_faults (gBlacklistHead : Head) (AccountName FullName : UNICODE_STRING)
    (MaximumLength : Nat) (SetOperation : Bool) (hmax : MaximumLength < 2 ^ 16) :
    PasswordFilter gBlacklistHead AccountName FullName
        { Buffer := [], MaximumLength := MaximumLength } SetOperation true
      = .error .outOfRange := by
  unfold PasswordFilter
  cases hacc : memcpy (List.replicate 128 0) AccountName.Buffer (AccountName.Length / 2) with
  | error e =>
    unfold memcpy at hacc
    split at hacc
    · cases hacc
    · cases hacc; rfl
  | ok c =>
    have hcopy : memcpy (List.replicate (MaximumLength / 2) 0) []
        (UNICODE_STRING.Length { Buffer := [], MaximumLength := MaximumLength } / 2)
        = .ok (List.replicate (MaximumLength / 2) 0) := by
      simp [memcpy, UNICODE_STRING.Length]
    simp only [Bool.true_eq_false, if_false, hcopy]
    rw [List.length_replicate,
      lowerLoop_zeros (MaximumLength / 2) (by omega) _ 0 (by omega) (by omega)]

/-- C5 on a buffer with room for the terminator only and the token "abc". -/
theorem empty_password_faults_witness :
    PasswordFilter (.valid [node 32 (wstr "abc")]) (ustr "user") (ustr "User")
        { Buffer := [], MaximumLength := 2 } false true
      = .error .outOfRange :=
  empty_password_faults (.valid [node 32 (wstr "abc")]) (ustr "user") (ustr "User") 2 false
    (by decide)

/-! ## Lemmas on the byte loop -/

theorem zeroNode_eq (MAX : Nat) : zeroNode MAX = node MAX [] := by
  simp [zeroNode, node]

theorem node_set (MAX : Nat) (pre : List Nat) (x : Nat) (h : pre.length < MAX) :
    ({ String := (node MAX pre).String.set pre.length x } : BADSTRING)
      = node MAX (pre ++ [x]) := by
  obtain ⟨k, hk⟩ : ∃ k, MAX - pre.length = k + 1 := ⟨MAX - pre.length - 1, by omega⟩
  have hk2 : MAX - (pre.length + 1) = k := by omega
  simp [node, hk, hk2, List.replicate_succ]

/-- A run of printable bytes that fits the line is stored, lowercased, in the
current node. -/
theorem readLoop_chars (MAX : Nat) (cs : List Nat) : ∀ (pre rest : List Nat) (allocs : Option Nat),
    (∀ c ∈ cs, 0x20 ≤ c) → pre.length + cs.length ≤ MAX - 1 →
    readLoop MAX (cs ++ rest) allocs (node MAX pre) pre.length
      = readLoop MAX rest allocs (node MAX (pre ++ cs.map towlower))
          (pre.length + cs.length) := by
  induction cs with
  | nil => intro pre rest allocs _ _; simp
  | cons c cs ih =>
    intro pre rest allocs hprint hfit
    have hc : 0x20 ≤ c := hprint c (by simp)
    simp only [List.length_cons] at hfit
    have hk : ¬ (MAX - 1 ≤ pre.length) := by omega
    have h1 : ¬ (c < 0x20 ∧ c ≠ 0x0A) := by omega
    have h2 : c ≠ 0x0A := by omega
    rw [List.cons_append, readLoop]
    simp only [hk, if_false, h1, h2]
    rw [node_set MAX pre (towlower c) (by omega)]
    have := ih (pre ++ [towlower c]) rest allocs
      (fun x hx => hprint x (by simp [hx])) (by simp; omega)
    simp only [List.length_append, List.length_singleton] at this
    rw [this]
    simp [Nat.add_assoc, Nat.add_comm 1]

/-- A rebuild whose allocation budget runs out keeps the first nodes of the list
that the complete rebuild makes. -/
theorem readLoop_budget (MAX : Nat) (C : List Nat) : ∀ (k : Nat) (cur : BADSTRING) (j : Nat),
    readLoop MAX C (some k) cur j = (readLoop MAX C none cur j).take (k + 1) := by
  induction C with
  | nil => intro k cur j; simp [readLoop]
  | cons b rest ih =>
    intro k cur j
    simp only [readLoop]
    generalize (if MAX - 1 ≤ j then 0x0A else b) = Read
    by_cases h1 : Read < 0x20 ∧ Read ≠ 0x0A
    · rw [if_pos h1, if_pos h1]
      exact ih k cur j
    · rw [if_neg h1, if_neg h1]
      by_cases h2 : Read = 0x0A
      · rw [if_pos h2, if_pos h2]
        cases k with
        | zero => simp [HeapAlloc]
        | succ k => simp [HeapAlloc, ih k]
      · rw [if_neg h2, if_neg h2]
        exact ih k _ _

/-- Carriage returns before the line feeds add blank nodes only. -/
theorem readLoop_crlf (MAX : Nat) (hMAX : 0 < MAX) (C : List Nat) :
    ∀ (cur : BADSTRING) (j : Nat),
    (readLoop MAX (crlf C) none cur j).filter (fun n => !n.isBlank)
      = (readLoop MAX C none cur j).filter (fun n => !n.isBlank) := by
  have hblank : (zeroNode MAX).isBlank = true := by
    obtain ⟨m, rfl⟩ : ∃ m, MAX = m + 1 := ⟨MAX - 1, by omega⟩
    simp [BADSTRING.isBlank, zeroNode, wcslen, cstr, List.replicate_succ]
  induction C with
  | nil => intro cur j; rfl
  | cons b rest ih =>
    intro cur j
    by_cases hb : b = 0x0A
    · subst hb
      have hL : readLoop MAX (0x0A :: rest) none cur j
          = cur :: readLoop MAX rest none (zeroNode MAX) 0 := by
        simp [readLoop, HeapAlloc]
      have hL2 : ∀ cur j, readLoop MAX (0x0A :: crlf rest) none cur j
          = cur :: readLoop MAX (crlf rest) none (zeroNode MAX) 0 := by
        intro cur j; simp [readLoop, HeapAlloc]
      rw [hL]
      simp only [crlf, if_true]
      by_cases hk : MAX - 1 ≤ j
      · have hR : readLoop MAX (0x0D :: 0x0A :: crlf rest) none cur j
            = cur :: readLoop MAX (0x0A :: crlf rest) none (zeroNode MAX) 0 := by
          rw [readLoop]; simp [hk, HeapAlloc]
        rw [hR, hL2]
        simp only [List.filter_cons, hblank, Bool.not_true, ih]
        simp
      · have hR : readLoop MAX (0x0D :: 0x0A :: crlf rest) none cur j
            = readLoop MAX (0x0A :: crlf rest) none cur j := by
          rw [readLoop]; simp [hk]
        rw [hR, hL2]
        simp only [List.filter_cons, ih]
    · simp only [crlf, hb, if_false, readLoop]
      generalize (if MAX - 1 ≤ j then 0x0A else b) = Read
      by_cases h1 : Read < 0x20 ∧ Read ≠ 0x0A
      · rw [if_pos h1, if_pos h1]
        exact ih _ _
      · rw [if_neg h1, if_neg h1]
        by_cases h2 : Read = 0x0A
        · rw [if_pos h2, if_pos h2]
          simp only [HeapAlloc, List.filter_cons, ih]
        · rw [if_neg h2, if_neg h2]
          exact ih _ _

/-! ## The blacklist parser -/

/-- C6, evaluated on the code: a line of `MAX + 1` printable bytes, one more than
fits after the forced break, is not cut at the bound.  The byte at the bound is
turned into a line feed and the bytes after it start a token of their own: the
line `a..abc` gives the tokens `a..a` and `c`. -/
theorem overlong_line_splits (MAX : Nat) (hMAX : 2 ≤ MAX) :
    parse MAX (List.replicate (MAX - 1) 0x61 ++ [0x62, 0x63, 0x0A])
      = [node MAX (List.replicate (MAX - 1) 0x61), node MAX [0x63], node MAX []] := by
  have hrun := readLoop_chars MAX (List.replicate (MAX - 1) 0x61) [] [0x62, 0x63, 0x0A] none
    (by intro c hc; rw [List.eq_of_mem_replicate hc]; decide) (by simp)
  have hlow : List.map towlower (List.replicate (MAX - 1) 0x61)
      = List.replicate (MAX - 1) 0x61 := by
    rw [List.map_replicate]; rfl
  simp only [List.nil_append, List.length_nil, List.length_replicate, Nat.zero_add, hlow]
    at hrun
  have hset := node_set MAX [] (towlower 0x63) (by simp; omega)
  have hlow2 : towlower 0x63 = 0x63 := by decide
  simp only [List.length_nil, List.nil_append, hlow2] at hset
  have h1 : ¬ (MAX - 1 ≤ 0) := by omega
  unfold parse
  rw [zeroNode_eq, hrun]
  simp [readLoop, HeapAlloc, h1, zeroNode_eq, hset, hlow2]

/-- C6 for a buffer of 32 characters. -/
theorem overlong_line_splits_witness :
    parse 32 (List.replicate 31 0x61 ++ [0x62, 0x63, 0x0A])
      = [node 32 (List.replicate 31 0x61), node 32 [0x63], node 32 []] :=
  overlong_line_splits 32 (by decide)

/-- C7: the parse of a file and the parse of the same file with every LF replaced
by CR LF hold the same non-empty tokens in the same order, and `PasswordFilter`
has the same outcome against both.  This holds for every file content, so in
particular for the files without carriage return. -/
theorem crlf_same_decisions (MAX : Nat) (hMAX : 0 < MAX) (C : List Nat)
    (AccountName FullName P : UNICODE_STRING) (SetOperation heapAllocOk : Bool) :
    (parse MAX (crlf C)).filter (fun n => !n.isBlank)
      = (parse MAX C).filter (fun n => !n.isBlank)
    ∧ PasswordFilter (.valid (parse MAX (crlf C))) AccountName FullName P SetOperation
          heapAllocOk
      = PasswordFilter (.valid (parse MAX C)) AccountName FullName P SetOperation
          heapAllocOk := by
  have hfilter := readLoop_crlf MAX hMAX C (zeroNode MAX) 0
  refine ⟨hfilter, ?_⟩
  rw [← PasswordFilter_filter (parse MAX (crlf C)), ← PasswordFilter_filter (parse MAX C)]
  unfold parse
  rw [hfilter]

/-- C7 on the file "abc", "xy" with LF line ends, a buffer of 32 characters and the
password "abcxyz". -/
theorem crlf_same_decisions_witness :
    (parse 32 (crlf [0x61, 0x62, 0x63, 0x0A, 0x78, 0x79, 0x0A])).filter (fun n => !n.isBlank)
      = (parse 32 [0x61, 0x62, 0x63, 0x0A, 0x78, 0x79, 0x0A]).filter (fun n => !n.isBlank)
    ∧ PasswordFilter (.valid (parse 32 (crlf [0x61, 0x62, 0x63, 0x0A, 0x78, 0x79, 0x0A])))
          (ustr "user") (ustr "User") (ustr "abcxyz") false true
      = PasswordFilter (.valid (parse 32 [0x61, 0x62, 0x63, 0x0A, 0x78, 0x79, 0x0A]))
          (ustr "user") (ustr "User") (ustr "abcxyz") false true :=
  crlf_same_decisions 32 (by decide) [0x61, 0x62, 0x63, 0x0A, 0x78, 0x79, 0x0A]
    (ustr "user") (ustr "User") (ustr "abcxyz") false true

/-! ## The loader cycle -/

/-- C8 fails as stated: a store whose head has no nodes yet (left by a first pass
in which the allocation of the first node failed), a file with the lines "x" and
"y", and the allocation for the second line fails.  After the cycle the list is
the single token "x", not the list before it, and the password "x" that was
accepted before is rejected.  No node is released in these passes. -/
theorem failed_rebuild_drops_prior_list :
    BlacklistThreadProc 32 Globals.initial
        { openOk := true, fileTime := some 3, content := [0x78, 0x0A, 0x79, 0x0A],
          allocs := some 1, releasedLinkReadable := false }
      = .ok { gBlacklistHead := .valid [],
              gBlackListOldFileTime := 3, gBlackListNewFileTime := 3 }
    ∧ BlacklistThreadProc 32
        { gBlacklistHead := .valid [],
          gBlackListOldFileTime := 3, gBlackListNewFileTime := 3 }
        { openOk := true, fileTime := some 7, content := [0x78, 0x0A, 0x79, 0x0A],
          allocs := some 1, releasedLinkReadable := false }
      = .ok { gBlacklistHead := .valid [node 32 (wstr "x")],
              gBlackListOldFileTime := 7, gBlackListNewFileTime := 7 }
    ∧ Head.valid [node 32 (wstr "x")] ≠ Head.valid []
    ∧ decision (PasswordFilter (.valid [])
        (ustr "user") (ustr "User") (ustr "x") false true) = .ok true
    ∧ decision (PasswordFilter (.valid [node 32 (wstr "x")])
        (ustr "user") (ustr "User") (ustr "x") false true) = .ok false := by
  decide

/-- The clearing loop ends without a fault on a list without nodes, and on every
list when the released links are readable. -/
theorem clearLoop_ok (readable : Bool) (old : List BADSTRING)
    (h : old = [] ∨ readable = true) : clearLoop readable old = .ok () := by
  induction old with
  | nil => rfl
  | cons n old ih =>
    rcases h with h | h
    · cases h
    · rw [clearLoop, if_pos h]
      exact ih (Or.inr h)

/-- C8 as amended: in a cycle that finds a changed modification time, a failed
allocation of the list head leaves the store as it was; a failed first-node
allocation on a store without nodes (head NULL or a head without nodes) leaves a
list without nodes; and a failed per-line allocation leaves the first nodes of
the new list: with `k` per-line allocations before the failing one, the first
`k + 1` nodes of the complete parse of the file.  For a store whose list has
nodes this is stated for the case that the clearing loop can read the links of
the nodes it has released. -/
theorem rebuild_allocation_failure (MAX : Nat) (g : Globals) (e : Cycle) (t k : Nat)
    (hopen : e.openOk = true) (htime : e.fileTime = some t)
    (hchanged : t ≠ g.gBlackListOldFileTime) :
    (g.gBlacklistHead = .null → e.allocs = some 0 →
      BlacklistThreadProc MAX g e
        = .ok { gBlacklistHead := g.gBlacklistHead,
                gBlackListOldFileTime := t, gBlackListNewFileTime := t })
    ∧ (g.gBlacklistHead = .null → e.allocs = some 1 →
      BlacklistThreadProc MAX g e
        = .ok { gBlacklistHead := .valid [],
                gBlackListOldFileTime := t, gBlackListNewFileTime := t })
    ∧ (g.gBlacklistHead = .valid [] → e.allocs = some 0 →
      BlacklistThreadProc MAX g e
        = .ok { gBlacklistHead := g.gBlacklistHead,
                gBlackListOldFileTime := t, gBlackListNewFileTime := t })
    ∧ (g.gBlacklistHead ≠ .freed →
        (∀ old, g.gBlacklistHead = .valid old → old = [] ∨ e.releasedLinkReadable = true) →
        e.allocs = some ((if g.gBlacklistHead = .null then 1 else 0) + 1 + k) →
        k + 1 < (parse MAX e.content).length →
        BlacklistThreadProc MAX g e
          = .ok { gBlacklistHead := .valid ((parse MAX e.content).take (k + 1)),
                  gBlackListOldFileTime := t, gBlackListNewFileTime := t }) := by
  refine ⟨?_, ?_, ?_, ?_⟩
  · intro hnull hallocs
    simp [BlacklistThreadProc, hopen, htime, hchanged, hnull, hallocs, HeapAlloc, Sleep]
  · intro hnull hallocs
    simp [BlacklistThreadProc, hopen, htime, hchanged, hnull, hallocs, HeapAlloc, Sleep,
      clearLoop]
  · intro hempty hallocs
    simp [BlacklistThreadProc, hopen, htime, hchanged, hempty, hallocs, HeapAlloc, Sleep,
      clearLoop]
  · intro hfreed hclear hallocs _
    cases hhead : g.gBlacklistHead with
    | freed => exact absurd hhead hfreed
    | null =>
      rw [hhead] at hallocs
      have h2 : e.allocs = some (k + 1 + 1) := by rw [hallocs]; simp; omega
      simp [BlacklistThreadProc, hopen, htime, hchanged, hhead, h2, HeapAlloc, Sleep,
        parse, readLoop_budget, clearLoop]
    | valid old =>
      rw [hhead] at hallocs
      have h2 : e.allocs = some (k + 1) := by rw [hallocs]; simp; omega
      have h3 := clearLoop_ok e.releasedLinkReadable old (hclear old hhead)
      simp [BlacklistThreadProc, hopen, htime, hchanged, hhead, h2, h3, HeapAlloc, Sleep,
        parse, readLoop_budget]

/-- C8 as amended, on a store whose head has no nodes and the file with the lines
"x" and "y": the allocation for the second line fails and the list is the first
node of the complete parse.  No node is released in this pass. -/
theorem rebuild_allocation_failure_witness :
    BlacklistThreadProc 32
        { gBlacklistHead := .valid [],
          gBlackListOldFileTime := 3, gBlackListNewFileTime := 3 }
        { openOk := true, fileTime := some 7, content := [0x78, 0x0A, 0x79, 0x0A],
          allocs := some 1, releasedLinkReadable := false }
      = .ok { gBlacklistHead := .valid ((parse 32 [0x78, 0x0A, 0x79, 0x0A]).take 1),
              gBlackListOldFileTime := 7, gBlackListNewFileTime := 7 } :=
  (rebuild_allocation_failure 32
      { gBlacklistHead := .valid [],
        gBlackListOldFileTime := 3, gBlackListNewFileTime := 3 }
      { openOk := true, fileTime := some 7, content := [0x78, 0x0A, 0x79, 0x0A],
        allocs := some 1, releasedLinkReadable := false }
      7 0 rfl rfl (by decide)).2.2.2 (by decide)
    (by intro old h; exact Or.inl (Head.valid.inj h).symm)
    (by decide) (by decide)

/-- C9, evaluated on the code: the assignment to `gBlackListOldFileTime` stands after
the label `Sleep:` and runs on the failure paths too.  A rebuild from the file
state of time 7 is cut short by a failed allocation; the time is advanced to 7
all the same, so the next poll of the same file finds nothing to do and the list
stays the single token "x" although the file parses to "x", "y" and a blank.
The same happens on the first build from the initial globals, where no node is
released. -/
theorem failed_rebuild_not_retried :
    runCycles 32
        { gBlacklistHead := .valid [node 32 (wstr "abc")],
          gBlackListOldFileTime := 5, gBlackListNewFileTime := 5 }
        [{ openOk := true, fileTime := some 7, content := [0x78, 0x0A, 0x79, 0x0A],
           allocs := some 1, releasedLinkReadable := true },
         { openOk := true, fileTime := some 7, content := [0x78, 0x0A, 0x79, 0x0A],
           allocs := none, releasedLinkReadable := true }]
      = .ok { gBlacklistHead := .valid [node 32 (wstr "x")],
              gBlackListOldFileTime := 7, gBlackListNewFileTime := 7 }
    ∧ runCycles 32 Globals.initial
        [{ openOk := true, fileTime := some 7, content := [0x78, 0x0A, 0x79, 0x0A],
           allocs := some 2, releasedLinkReadable := false },
         { openOk := true, fileTime := some 7, content := [0x78, 0x0A, 0x79, 0x0A],
           allocs := none, releasedLinkReadable := false }]
      = .ok { gBlacklistHead := .valid [node 32 (wstr "x")],
              gBlackListOldFileTime := 7, gBlackListNewFileTime := 7 }
    ∧ parse 32 [0x78, 0x0A, 0x79, 0x0A]
        = [node 32 (wstr "x"), node 32 (wstr "y"), node 32 []] := by
  decide

/-- The store stays in its initial state as long as every cycle fails to open the
file or to query its time. -/
theorem runCycles_never_loaded (MAX : Nat) (es : List Cycle)
    (hfail : ∀ e ∈ es, e.openOk = false ∨ e.fileTime = none) :
    runCycles MAX Globals.initial es = .ok Globals.initial := by
  induction es with
  | nil => rfl
  | cons e es ih =>
    have hstep : BlacklistThreadProc MAX Globals.initial e = .ok Globals.initial := by
      rcases hfail e (by simp) with h | h
      · simp [BlacklistThreadProc, h, Sleep, Globals.initial]
      · by_cases ho : e.openOk = false
        · simp [BlacklistThreadProc, ho, Sleep, Globals.initial]
        · simp [BlacklistThreadProc, ho, h, Sleep, Globals.initial]
    rw [runCycles, hstep]
    exact ih (fun e he => hfail e (by simp [he]))

/-- C10, evaluated on the code: after any number of cycles that all failed to open
the file or to query its time, `gBlacklistHead` is still NULL, and a call of
`PasswordFilter` whose buffer allocation succeeds does not return: it ends in a
fault, for a well-formed password in the dereference of the NULL head. -/
theorem never_loaded_faults (MAX : Nat) (es : List Cycle)
    (hfail : ∀ e ∈ es, e.openOk = false ∨ e.fileTime = none)
    (AccountName FullName P : UNICODE_STRING) (SetOperation : Bool) :
    ∃ g, runCycles MAX Globals.initial es = .ok g ∧ g.gBlacklistHead = .null
      ∧ (∃ f, PasswordFilter g.gBlacklistHead AccountName FullName P SetOperation true
            = .error f)
      ∧ (AccountName.Length ≤ 256 → P.Buffer ≠ [] → 0 ∉ P.Buffer →
          P.Length + 2 ≤ P.MaximumLength → P.MaximumLength < 2 ^ 16 →
          PasswordFilter g.gBlacklistHead AccountName FullName P SetOperation true
            = .error .nullPointer) := by
  refine ⟨Globals.initial, runCycles_never_loaded MAX es hfail, rfl, ?_, ?_⟩
  · simp only [Globals.initial, PasswordFilter]
    split
    · exact ⟨_, rfl⟩
    · simp only [Bool.true_eq_false, if_false]
      split
      · exact ⟨_, rfl⟩
      · split
        · exact ⟨_, rfl⟩
        · exact ⟨_, rfl⟩
  · intro hacc hne hnul hroom hmax
    obtain ⟨c, hc⟩ := memcpy_account AccountName hacc
    have hlen : P.Buffer.length < 2 ^ 64 := by
      have : P.Buffer.length < 2 ^ 16 := by
        unfold UNICODE_STRING.Length at hroom; omega
      omega
    have hrun := lowerLoop_run P.Buffer [] (
        List.replicate (P.MaximumLength / 2 - P.Buffer.length - 1) 0)
      ((P.Buffer ++ 0 :: List.replicate (P.MaximumLength / 2 - P.Buffer.length - 1) 0).length
        + 1)
      (by simp) hnul hne (by simpa using hlen) (by simp; omega)
    simp only [List.nil_append, List.length_nil] at hrun
    simp only [Globals.initial, PasswordFilter]
    rw [hc, memcpy_password P hroom]
    simp only [Bool.true_eq_false, if_false]
    rw [hrun]

/-- C10 after two cycles, one failing to open the file and one failing the time
query, for the password "Secret1". -/
theorem never_loaded_faults_witness :
    ∃ g, runCycles 32 Globals.initial
          [{ openOk := false, fileTime := none, content := [], allocs := none,
             releasedLinkReadable := false },
           { openOk := true, fileTime := none, content := [], allocs := none,
             releasedLinkReadable := false }] = .ok g
      ∧ g.gBlacklistHead = .null
      ∧ PasswordFilter g.gBlacklistHead (ustr "user") (ustr "User") (ustr "Secret1") false true
          = .error .nullPointer := by
  obtain ⟨g, h1, h2, _, h4⟩ := never_loaded_faults 32
    [{ openOk := false, fileTime := none, content := [], allocs := none,
             releasedLinkReadable := false },
     { openOk := true, fileTime := none, content := [], allocs := none,
             releasedLinkReadable := false }]
    (by decide) (ustr "user") (ustr "User") (ustr "Secret1") false
  exact ⟨g, h1, h2, h4 (by decide) (by decide) (by decide) (by decide) (by decide)⟩

/-! ## Further lemmas on PasswordFilter -/

/-- The account name takes part in the call only through the copy into
`AccountNameCopy[128]`; a name that fits leaves no trace in the outcome. -/
theorem PasswordFilter_account (h : Head) (A F A2 F2 P : UNICODE_STRING) (S S2 ok : Bool)
    (hacc : A.Length ≤ 256) (hacc2 : A2.Length ≤ 256) :
    PasswordFilter h A F P S ok = PasswordFilter h A2 F2 P S2 ok := by
  obtain ⟨c, hc⟩ := memcpy_account A hacc
  obtain ⟨c2, hc2⟩ := memcpy_account A2 hacc2
  unfold PasswordFilter
  rw [hc, hc2]

/-- A name of more than 256 bytes overruns `AccountNameCopy[128]`. -/
theorem PasswordFilter_account_overrun (h : Head) (A F P : UNICODE_STRING) (S ok : Bool)
    (hacc : ¬ A.Length ≤ 256) :
    PasswordFilter h A F P S ok = .error .outOfRange := by
  have hm : memcpy (List.replicate 128 0) A.Buffer (A.Length / 2) = .error .outOfRange := by
    unfold UNICODE_STRING.Length at *
    unfold memcpy
    apply if_neg
    simp only [List.length_replicate]
    omega
  unfold PasswordFilter
  rw [hm]

/-- The case-folding loop on the copy of a well-formed password gives `workingCopy`. -/
theorem lowerLoop_password (P : UNICODE_STRING) (hne : P.Buffer ≠ []) (hnul : 0 ∉ P.Buffer)
    (hroom : P.Length + 2 ≤ P.MaximumLength) (hmax : P.MaximumLength < 2 ^ 16) :
    lowerLoop
        ((P.Buffer ++ 0 :: List.replicate (P.MaximumLength / 2 - P.Buffer.length - 1) 0).length
          + 1) 0
        (P.Buffer ++ 0 :: List.replicate (P.MaximumLength / 2 - P.Buffer.length - 1) 0)
      = .ok (workingCopy P) := by
  have hlen : P.Buffer.length < 2 ^ 64 := by
    have : P.Buffer.length < 2 ^ 16 := by
      unfold UNICODE_STRING.Length at hroom; omega
    omega
  have hrun := lowerLoop_run P.Buffer [] (
      List.replicate (P.MaximumLength / 2 - P.Buffer.length - 1) 0)
    ((P.Buffer ++ 0 :: List.replicate (P.MaximumLength / 2 - P.Buffer.length - 1) 0).length + 1)
    (by simp) hnul hne (by simpa using hlen) (by simp; omega)
  simp only [List.nil_append, List.length_nil] at hrun
  rw [hrun]
  rfl

theorem scanBlacklistTrace_result (pc : List Nat) (L : List BADSTRING) :
    (scanBlacklistTrace pc L).2 = scanBlacklist pc L := by
  induction L with
  | nil => rfl
  | cons n L ih =>
    rw [scanBlacklistTrace, scanBlacklist]
    cases wcslen n.String with
    | error e => rfl
    | ok tokenLen =>
      simp only []
      by_cases h0 : tokenLen = 0
      · rw [if_pos h0, if_pos h0]; exact ih
      · rw [if_neg h0, if_neg h0]
        cases wcsstr pc n.String with
        | error e => rfl
        | ok found =>
          cases found with
          | false => exact ih
          | true =>
            simp only []
            cases wcslen pc with
            | error e => rfl
            | ok passwordLen =>
              simp only []
              by_cases hr : ratioAtLeastHalf tokenLen passwordLen = true
              · rw [if_pos hr, if_pos hr]
              · rw [if_neg hr, if_neg hr]; exact ih

/-- A token that `wcsstr` finds in a buffer is at most as long as the string in the
buffer. -/
theorem wcslen_pos_of_found (pc tok : List Nat) (tokenLen passwordLen : Nat)
    (ht : wcslen tok = .ok tokenLen)
    (hfound : wcsstr pc tok = .ok true) (hp : wcslen pc = .ok passwordLen) :
    tokenLen ≤ passwordLen := by
  unfold wcslen at ht hp
  unfold wcsstr at hfound
  cases hh : cstr pc with
  | error e => rw [hh] at hp; cases hp
  | ok h =>
    cases hn : cstr tok with
    | error e => rw [hn] at ht; cases ht
    | ok T =>
      rw [hh] at hp hfound
      rw [hn] at ht hfound
      simp only [Except.ok.injEq] at hp ht hfound
      have := ((occursIn_iff T h).mp hfound).length_le
      omega

/-- The divisions of the token loop on "abcdefg" with the tokens "abc" and "efg". -/
theorem scanBlacklistTrace_example :
    scanBlacklistTrace (wstr "abcdefg" ++ [0]) [node 32 (wstr "abc"), node 32 (wstr "efg")]
      = ([(3, 7), (3, 7)], .ok true) := by
  decide

/-- Every division of the token loop has a non-empty token above and a string at
least as long below. -/
theorem scanBlacklistTrace_operands (pc : List Nat) (L : List BADSTRING) :
    ∀ d ∈ (scanBlacklistTrace pc L).1, 1 ≤ d.1 ∧ d.1 ≤ d.2 := by
  induction L with
  | nil => intro d hd; simp [scanBlacklistTrace] at hd
  | cons n L ih =>
    rw [scanBlacklistTrace]
    cases ht : wcslen n.String with
    | error e => intro d hd; simp at hd
    | ok tokenLen =>
      simp only []
      by_cases h0 : tokenLen = 0
      · rw [if_pos h0]; exact ih
      · rw [if_neg h0]
        cases hf : wcsstr pc n.String with
        | error e => intro d hd; simp at hd
        | ok found =>
          cases found with
          | false => exact ih
          | true =>
            simp only []
            cases hp : wcslen pc with
            | error e => intro d hd; simp at hd
            | ok passwordLen =>
              simp only []
              have hle := wcslen_pos_of_found pc n.String tokenLen passwordLen ht hf hp
              by_cases hr : ratioAtLeastHalf tokenLen passwordLen = true
              · rw [if_pos hr]
                intro d hd
                simp only [List.mem_singleton] at hd
                subst hd
                exact ⟨by simp only []; omega, hle⟩
              · rw [if_neg hr]
                intro d hd
                simp only [List.mem_cons] at hd
                rcases hd with hd | hd
                · subst hd
                  exact ⟨by simp only []; omega, hle⟩
                · exact ih d hd

/-! ## Reload, failure of the buffer allocation, the unused arguments -/

/-- C11: a loader cycle that reads a modification time equal to the last observed
one leaves the token list as it was, so every call of `PasswordFilter` has the
same outcome after the cycle as before it. -/
theorem unchanged_time_keeps_list (MAX : Nat) (g : Globals) (e : Cycle)
    (htime : e.fileTime = some g.gBlackListOldFileTime) :
    ∃ g2, BlacklistThreadProc MAX g e = .ok g2
      ∧ g2.gBlacklistHead = g.gBlacklistHead
      ∧ ∀ (AccountName FullName P : UNICODE_STRING) (SetOperation heapAllocOk : Bool),
          PasswordFilter g2.gBlacklistHead AccountName FullName P SetOperation heapAllocOk
            = PasswordFilter g.gBlacklistHead AccountName FullName P SetOperation
                heapAllocOk := by
  by_cases ho : e.openOk = false
  · refine ⟨Sleep g, ?_, rfl, fun _ _ _ _ _ => rfl⟩
    simp [BlacklistThreadProc, ho]
  · refine ⟨Sleep { g with gBlackListNewFileTime := g.gBlackListOldFileTime }, ?_, rfl,
      fun _ _ _ _ _ => rfl⟩
    simp [BlacklistThreadProc, ho, htime]

/-- C11 on a store with the token "abc" read at time 5 and a cycle that finds the
file, with other content, still at time 5. -/
theorem unchanged_time_keeps_list_witness :
    ∃ g2, BlacklistThreadProc 32
          { gBlacklistHead := .valid [node 32 (wstr "abc")],
            gBlackListOldFileTime := 5, gBlackListNewFileTime := 5 }
          { openOk := true, fileTime := some 5, content := [0x78, 0x0A], allocs := none,
            releasedLinkReadable := false }
        = .ok g2
      ∧ g2.gBlacklistHead = .valid [node 32 (wstr "abc")] := by
  obtain ⟨g2, h1, h2, _⟩ := unchanged_time_keeps_list 32
    { gBlacklistHead := .valid [node 32 (wstr "abc")],
      gBlackListOldFileTime := 5, gBlackListNewFileTime := 5 }
    { openOk := true, fileTime := some 5, content := [0x78, 0x0A], allocs := none,
            releasedLinkReadable := false } rfl
  exact ⟨g2, h1, h2⟩

/-- C12: when the allocation of the password buffer fails, `PasswordFilter` returns
reject and has released nothing, whatever the password and whatever hangs off
`gBlacklistHead`: the outcome is the same for a NULL head and for a released
chain, so no token is read. -/
theorem allocation_failure_rejects (gBlacklistHead : Head)
    (AccountName FullName P : UNICODE_STRING) (SetOperation : Bool)
    (hacc : AccountName.Length ≤ 256) :
    PasswordFilter gBlacklistHead AccountName FullName P SetOperation false
      = .ok { PasswordIsOK := false, released := none } := by
  obtain ⟨c, hc⟩ := memcpy_account AccountName hacc
  unfold PasswordFilter
  rw [hc]
  rfl

/-- C12 on the password "abc" with a NULL list head. -/
theorem allocation_failure_rejects_witness :
    PasswordFilter .null (ustr "user") (ustr "User") (ustr "abc") false false
      = .ok { PasswordIsOK := false, released := none } :=
  allocation_failure_rejects .null (ustr "user") (ustr "User") (ustr "abc") false
    (by decide)

/-- C16: two calls of `PasswordFilter` with the same password, list and allocation
result that differ in `AccountName`, `FullName` or `SetOperation` have the same
outcome when both account names fit `AccountNameCopy[128]`, and in any case two
such calls that return, return the same `BOOL`. -/
theorem decision_ignores_account (gBlacklistHead : Head)
    (AccountName FullName AccountName2 FullName2 P : UNICODE_STRING)
    (SetOperation SetOperation2 heapAllocOk : Bool) :
    (AccountName.Length ≤ 256 → AccountName2.Length ≤ 256 →
      PasswordFilter gBlacklistHead AccountName FullName P SetOperation heapAllocOk
        = PasswordFilter gBlacklistHead AccountName2 FullName2 P SetOperation2 heapAllocOk)
    ∧ ∀ b b2 : Bool,
        decision (PasswordFilter gBlacklistHead AccountName FullName P SetOperation
          heapAllocOk) = .ok b →
        decision (PasswordFilter gBlacklistHead AccountName2 FullName2 P SetOperation2
          heapAllocOk) = .ok b2 →
        b = b2 := by
  refine ⟨fun h1 h2 => PasswordFilter_account _ _ _ _ _ _ _ _ _ h1 h2, ?_⟩
  intro b b2 hb hb2
  by_cases h1 : AccountName.Length ≤ 256
  · by_cases h2 : AccountName2.Length ≤ 256
    · rw [PasswordFilter_account gBlacklistHead AccountName FullName AccountName2 FullName2 P
        SetOperation SetOperation2 heapAllocOk h1 h2] at hb
      rw [hb] at hb2
      exact Except.ok.inj hb2
    · rw [PasswordFilter_account_overrun _ _ _ _ _ _ h2] at hb2
      cases hb2
  · rw [PasswordFilter_account_overrun _ _ _ _ _ _ h1] at hb
    cases hb

/-- C16 on the password "abc" and the token "abc": a change call for "alice" and a
set call for "bob" both reject. -/
theorem decision_ignores_account_witness :
    PasswordFilter (.valid [node 32 (wstr "abc")]) (ustr "alice") (ustr "Alice A")
        (ustr "abc") false true
      = PasswordFilter (.valid [node 32 (wstr "abc")]) (ustr "bob") (ustr "Bob B")
        (ustr "abc") true true :=
  (decision_ignores_account (.valid [node 32 (wstr "abc")]) (ustr "alice") (ustr "Alice A")
    (ustr "bob") (ustr "Bob B") (ustr "abc") false true true).1 (by decide) (by decide)

/-! ## The working copy and the ratio -/

/-- C19: for a password `P` of `n ≥ 1` characters, the copy that the case-folding
loop leaves, and that the token loop matches, holds `P` with the characters
`0 .. n-2` folded to lower case and the character `n-1` unchanged. -/
theorem case_folding_excludes_last (P : UNICODE_STRING) (hne : P.Buffer ≠ [])
    (hnul : 0 ∉ P.Buffer) (hroom : P.Length + 2 ≤ P.MaximumLength)
    (hmax : P.MaximumLength < 2 ^ 16) :
    ∃ copied,
      memcpy (List.replicate (P.MaximumLength / 2) 0) P.Buffer (P.Length / 2) = .ok copied
      ∧ lowerLoop (copied.length + 1) 0 copied = .ok (workingCopy P)
      ∧ cstr (workingCopy P)
          = .ok ((P.Buffer.take (P.Buffer.length - 1)).map towlower
                  ++ P.Buffer.drop (P.Buffer.length - 1))
      ∧ ∀ (L : List BADSTRING) (AccountName FullName : UNICODE_STRING) (SetOperation : Bool),
          AccountName.Length ≤ 256 →
          decision (PasswordFilter (.valid L) AccountName FullName P SetOperation true)
            = scanBlacklist (workingCopy P) L := by
  refine ⟨_, memcpy_password P hroom, lowerLoop_password P hne hnul hroom hmax,
    cstr_workingCopy P hnul, ?_⟩
  intro L A F S hacc
  rw [PasswordFilter_valid L A F P S hacc hne hnul hroom hmax]
  cases scanBlacklist (workingCopy P) L <;> rfl

/-- C19 on the password "ABC": the token loop sees "abC". -/
theorem case_folding_excludes_last_witness :
    cstr (workingCopy (ustr "ABC")) = .ok (wstr "abC") := by
  obtain ⟨_, _, _, h, _⟩ := case_folding_excludes_last (ustr "ABC") (by decide) (by decide)
    (by decide) (by decide)
  exact h

/-- C20: the division of the ratio test never has a zero denominator.  The token
loop with a record of its divisions computes what the token loop computes, and
at every division the token has at least one character and the password string
is at least as long as the token, so it has at least one character too. -/
theorem ratio_denominator_positive (PasswordCopy : List Nat) (L : List BADSTRING) :
    (scanBlacklistTrace PasswordCopy L).2 = scanBlacklist PasswordCopy L
    ∧ ∀ d ∈ (scanBlacklistTrace PasswordCopy L).1, 1 ≤ d.1 ∧ 1 ≤ d.2 := by
  refine ⟨scanBlacklistTrace_result PasswordCopy L, ?_⟩
  intro d hd
  have := scanBlacklistTrace_operands PasswordCopy L d hd
  omega

/-! ## The tokens of the parser -/

theorem towlower_printable {c : Nat} (h : 0x20 ≤ c) :
    0x20 ≤ towlower c ∧ ¬ (0x41 ≤ towlower c ∧ towlower c ≤ 0x5A) := by
  unfold towlower
  split <;> omega

theorem towlower_idem (c : Nat) : towlower (towlower c) = towlower c := by
  simp only [towlower]
  split_ifs <;> omega

/-- A node that holds a string without NUL, shorter than its array, reads back as
that string. -/
theorem cstr_node (MAX : Nat) (T : List Nat) (hnul : 0 ∉ T) (hlen : T.length < MAX) :
    cstr (node MAX T).String = .ok T := by
  obtain ⟨k, hk⟩ : ∃ k, MAX - T.length = k + 1 := ⟨MAX - T.length - 1, by omega⟩
  simp only [node, hk, List.replicate_succ]
  exact cstr_append_nul T _ hnul

/-- The byte loop keeps every node in the form of a short, printable, lowercase
string followed by NULs. -/
theorem readLoop_tokens (MAX : Nat) (C : List Nat) :
    ∀ (allocs : Option Nat) (pre : List Nat), pre.length ≤ MAX - 1 →
    (∀ c ∈ pre, 0x20 ≤ c ∧ ¬ (0x41 ≤ c ∧ c ≤ 0x5A)) →
    ∀ n ∈ readLoop MAX C allocs (node MAX pre) pre.length,
      ∃ T, n = node MAX T ∧ T.length ≤ MAX - 1
        ∧ ∀ c ∈ T, 0x20 ≤ c ∧ ¬ (0x41 ≤ c ∧ c ≤ 0x5A) := by
  induction C with
  | nil =>
    intro allocs pre hlen hgood n hn
    simp only [readLoop, List.mem_singleton] at hn
    exact ⟨pre, hn, hlen, hgood⟩
  | cons b rest ih =>
    intro allocs pre hlen hgood n hn
    simp only [readLoop] at hn
    by_cases hk : MAX - 1 ≤ pre.length
    · simp only [hk, if_true] at hn
      have h1 : ¬ ((0x0A : Nat) < 0x20 ∧ (0x0A : Nat) ≠ 0x0A) := by omega
      simp only [h1, if_false] at hn
      cases ha : HeapAlloc allocs with
      | none =>
        rw [ha] at hn
        simp only [List.mem_singleton] at hn
        exact ⟨pre, hn, hlen, hgood⟩
      | some a =>
        rw [ha] at hn
        simp only [List.mem_cons] at hn
        rcases hn with hn | hn
        · exact ⟨pre, hn, hlen, hgood⟩
        · rw [zeroNode_eq] at hn
          exact ih a [] (by simp) (by simp) n hn
    · simp only [hk, if_false] at hn
      by_cases h1 : b < 0x20 ∧ b ≠ 0x0A
      · rw [if_pos h1] at hn
        exact ih allocs pre hlen hgood n hn
      · rw [if_neg h1] at hn
        by_cases h2 : b = 0x0A
        · rw [if_pos h2] at hn
          cases ha : HeapAlloc allocs with
          | none =>
            rw [ha] at hn
            simp only [List.mem_singleton] at hn
            exact ⟨pre, hn, hlen, hgood⟩
          | some a =>
            rw [ha] at hn
            simp only [List.mem_cons] at hn
            rcases hn with hn | hn
            · exact ⟨pre, hn, hlen, hgood⟩
            · rw [zeroNode_eq] at hn
              exact ih a [] (by simp) (by simp) n hn
        · rw [if_neg h2, node_set MAX pre (towlower b) (by omega)] at hn
          have hb : 0x20 ≤ b := by omega
          have hgood2 : ∀ c ∈ pre ++ [towlower b], 0x20 ≤ c ∧ ¬ (0x41 ≤ c ∧ c ≤ 0x5A) := by
            intro c hc
            simp only [List.mem_append, List.mem_singleton] at hc
            rcases hc with hc | hc
            · exact hgood c hc
            · rw [hc]; exact towlower_printable hb
          have := ih allocs (pre ++ [towlower b]) (by simp; omega) hgood2 n
          simp only [List.length_append, List.length_singleton] at this
          exact this hn

/-- The parse of a file that starts with `MAX - 1` printable bytes and goes on
starts with the node of those bytes, lowercased. -/
theorem parse_long_first_line (MAX : Nat) (C : List Nat) (hlong : MAX ≤ C.length)
    (hMAX : 1 ≤ MAX) (hprint : ∀ c ∈ C.take (MAX - 1), 0x20 ≤ c) :
    ∃ rest, parse MAX C = node MAX ((C.take (MAX - 1)).map towlower) :: rest := by
  have hrun := readLoop_chars MAX (C.take (MAX - 1)) [] (C.drop (MAX - 1)) none hprint
    (by simp)
  rw [List.take_append_drop] at hrun
  simp only [List.nil_append, List.length_nil, Nat.zero_add, List.length_take] at hrun
  have hmin : min (MAX - 1) C.length = MAX - 1 := by omega
  rw [hmin] at hrun
  unfold parse
  rw [zeroNode_eq, hrun]
  cases hd : C.drop (MAX - 1) with
  | nil =>
    have := congrArg List.length hd
    simp only [List.length_drop, List.length_nil] at this
    omega
  | cons b r =>
    refine ⟨readLoop MAX r none (zeroNode MAX) 0, ?_⟩
    simp [readLoop, HeapAlloc]

/-- C13: every node of a list that the byte loop builds, from any bytes and with
any allocation budget, holds a token of at most `MAX - 1` characters in its
array of `MAX`, so the terminator fits; no character of the token is below
`0x20` and none is an uppercase ASCII letter. -/
theorem parser_token_invariant (MAX : Nat) (hMAX : 0 < MAX) (C : List Nat)
    (allocs : Option Nat) :
    ∀ n ∈ readLoop MAX C allocs (zeroNode MAX) 0,
      ∃ T, cstr n.String = .ok T ∧ n.String.length = MAX ∧ T.length ≤ MAX - 1
        ∧ ∀ c ∈ T, 0x20 ≤ c ∧ ¬ (0x41 ≤ c ∧ c ≤ 0x5A) := by
  intro n hn
  rw [zeroNode_eq] at hn
  obtain ⟨T, rfl, hlen, hgood⟩ := readLoop_tokens MAX C allocs [] (by simp) (by simp) n hn
  have hnul : 0 ∉ T := fun h0 => by
    have := (hgood 0 h0).1
    omega
  refine ⟨T, cstr_node MAX T hnul (by omega), ?_, hlen, hgood⟩
  simp only [node, List.length_append, List.length_replicate]
  omega

/-- C13 on a buffer of 4 characters and a file with an overlong line in mixed case,
a CR LF line end and a control byte: the first node holds "abc". -/
theorem parser_token_invariant_witness :
    ∃ T, cstr (node 4 [0x61, 0x62, 0x63]).String = .ok T
      ∧ (node 4 [0x61, 0x62, 0x63]).String.length = 4 ∧ T.length ≤ 4 - 1
      ∧ ∀ c ∈ T, 0x20 ≤ c ∧ ¬ (0x41 ≤ c ∧ c ≤ 0x5A) :=
  parser_token_invariant 4 (by decide) [0x41, 0x62, 0x43, 0x64, 0x45, 0x0D, 0x0A, 0x01, 0x58]
    none (node 4 [0x61, 0x62, 0x63]) (by decide)

/-- C14: when the first line of the file has more printable characters than the
bound `MAX - 1`, the parsed list starts with the token of the first `MAX - 1`
characters, lowercased, and `PasswordFilter` rejects the password that equals
this token. -/
theorem truncated_token_matches (MAX : Nat) (C : List Nat) (MaximumLength : Nat)
    (AccountName FullName : UNICODE_STRING) (SetOperation : Bool)
    (hMAX : 2 ≤ MAX) (hlong : MAX ≤ C.length) (hprint : ∀ c ∈ C.take MAX, 0x20 ≤ c)
    (hroom : 2 * (MAX - 1) + 2 ≤ MaximumLength) (hmax : MaximumLength < 2 ^ 16)
    (hacc : AccountName.Length ≤ 256) :
    (∃ rest, parse MAX C = node MAX ((C.take (MAX - 1)).map towlower) :: rest)
    ∧ cstr (node MAX ((C.take (MAX - 1)).map towlower)).String
        = .ok ((C.take (MAX - 1)).map towlower)
    ∧ decision (PasswordFilter (.valid (parse MAX C)) AccountName FullName
        { Buffer := (C.take (MAX - 1)).map towlower, MaximumLength := MaximumLength }
        SetOperation true) = .ok false := by
  have hprint1 : ∀ c ∈ C.take (MAX - 1), 0x20 ≤ c := by
    intro c hc
    have htt : C.take (MAX - 1) = (C.take MAX).take (MAX - 1) := by
      rw [List.take_take]; congr 1; omega
    rw [htt] at hc
    exact hprint c (List.mem_of_mem_take hc)
  obtain ⟨rest, hparse⟩ := parse_long_first_line MAX C hlong (by omega) hprint1
  have hTlen : ((C.take (MAX - 1)).map towlower).length = MAX - 1 := by
    simp only [List.length_map, List.length_take]; omega
  have hnul : 0 ∉ (C.take (MAX - 1)).map towlower := by
    intro h0
    obtain ⟨c, hc, hc0⟩ := List.mem_map.mp h0
    have := (towlower_printable (hprint1 c hc)).1
    omega
  have hlow : ∀ c ∈ (C.take (MAX - 1)).map towlower, towlower c = c := by
    intro c hc
    obtain ⟨x, _, hx⟩ := List.mem_map.mp hc
    rw [← hx, towlower_idem]
  have hnode := cstr_node MAX _ hnul (by omega)
  refine ⟨⟨rest, hparse⟩, hnode, ?_⟩
  generalize hT : (C.take (MAX - 1)).map towlower = T at *
  have hne : T ≠ [] := by
    intro h; rw [h] at hTlen; simp at hTlen; omega
  rw [PasswordFilter_valid _ AccountName FullName ⟨T, MaximumLength⟩ SetOperation hacc hne hnul
    (by simp only [UNICODE_STRING.Length]; omega) hmax, hparse]
  have hc := cstr_workingCopy ⟨T, MaximumLength⟩ hnul
  simp only [foldButLast_of_lower T hlow] at hc
  have hocc : occursIn T T = true := (occursIn_iff T T).mpr (List.infix_refl T)
  have hscan : scanBlacklist (workingCopy ⟨T, MaximumLength⟩) (node MAX T :: rest)
      = .ok false := by
    have h1 : T.length ≠ 0 := by omega
    have h2 : T.length ≤ 2 * T.length := by omega
    simp [scanBlacklist, wcslen, wcsstr, hnode, hc, hocc, ratioAtLeastHalf, h1, h2]
  rw [hscan]
  rfl

/-- C14 on a buffer of 4 characters and the first line "PASSWORD": the token is
"pas" and the password "pas" is rejected. -/
theorem truncated_token_matches_witness :
    (∃ rest, parse 4 (wstr "PASSWORD") = node 4 (wstr "pas") :: rest)
    ∧ cstr (node 4 (wstr "pas")).String = .ok (wstr "pas")
    ∧ decision (PasswordFilter (.valid (parse 4 (wstr "PASSWORD"))) (ustr "user") (ustr "User")
        { Buffer := wstr "pas", MaximumLength := 8 } false true) = .ok false :=
  truncated_token_matches 4 (wstr "PASSWORD") 8 (ustr "user") (ustr "User") false
    (by decide) (by decide) (by decide) (by decide) (by decide) (by decide)

/-! ## The token loop on terminated nodes -/

theorem isBlank_rejects (h : List Nat) (n : BADSTRING) (hb : n.isBlank = true) :
    n.rejects h = false := by
  unfold BADSTRING.isBlank at hb
  simp only [decide_eq_true_eq] at hb
  unfold wcslen at hb
  unfold BADSTRING.rejects
  cases hc : cstr n.String with
  | error e => rfl
  | ok T =>
    rw [hc] at hb
    simp only [Except.ok.injEq, List.length_eq_zero] at hb
    simp [hb]

theorem all_blank_none_rejects (h : List Nat) (L : List BADSTRING)
    (hall : L.all (fun n => n.isBlank) = true) : L.any (fun n => n.rejects h) = false := by
  rw [List.all_eq_true] at hall
  rw [List.any_eq_false]
  intro n hn
  simp [isBlank_rejects h n (hall n hn)]

/-- On a list of terminated nodes the token loop accepts when every node is blank;
otherwise it reads the password string and rejects exactly when some token
rejects it. -/
theorem scanBlacklist_terminated (pc : List Nat) (L : List BADSTRING)
    (hterm : ∀ n ∈ L, ∃ T, cstr n.String = .ok T) :
    scanBlacklist pc L
      = if L.all (fun n => n.isBlank) = true then .ok true
        else
          match cstr pc with
          | .error e => .error e
          | .ok h => .ok (!L.any (fun n => n.rejects h)) := by
  induction L with
  | nil => simp [scanBlacklist]
  | cons n L ih =>
    obtain ⟨T, hT⟩ := hterm n (by simp)
    have ih2 := ih (fun m hm => hterm m (by simp [hm]))
    rw [scanBlacklist]
    have hw : wcslen n.String = .ok T.length := by simp [wcslen, hT]
    rw [hw]
    simp only []
    by_cases h0 : T.length = 0
    · have hblank : n.isBlank = true := by simp [BADSTRING.isBlank, hw, h0]
      have hrej : ∀ h, n.rejects h = false := fun h => isBlank_rejects h n hblank
      rw [if_pos h0, ih2]
      simp only [List.all_cons, List.any_cons, hblank, hrej, Bool.true_and, Bool.false_or]
    · have hblank : n.isBlank = false := by simp [BADSTRING.isBlank, hw, h0]
      have hTne : T.isEmpty = false := by
        cases T with
        | nil => simp at h0
        | cons _ _ => rfl
      rw [if_neg h0]
      simp only [List.all_cons, hblank, Bool.false_and, Bool.false_eq_true, if_false]
      unfold wcsstr wcslen
      cases hh : cstr pc with
      | error e => rfl
      | ok h =>
        simp only [hT]
        have hrest : scanBlacklist pc L = .ok (!L.any (fun n => n.rejects h)) := by
          rw [ih2, hh]
          by_cases hall : L.all (fun n => n.isBlank) = true
          · rw [if_pos hall, all_blank_none_rejects h L hall]; rfl
          · rw [if_neg hall]
        cases hocc : occursIn T h with
        | false =>
          have hrej : n.rejects h = false := by
            simp [BADSTRING.rejects, hT, hocc]
          simp only [List.any_cons, hrej, Bool.false_or]
          exact hrest
        | true =>
          simp only []
          by_cases hr : ratioAtLeastHalf T.length h.length = true
          · have hrej : n.rejects h = true := by
              simp [BADSTRING.rejects, hT, hocc, hr, hTne]
            rw [if_pos hr]
            simp only [List.any_cons, hrej, Bool.true_or, Bool.not_true]
          · have hrej : n.rejects h = false := by
              simp [BADSTRING.rejects, hT, hocc, hr, hTne]
            rw [if_neg hr]
            simp only [List.any_cons, hrej, Bool.false_or]
            exact hrest

/-- C15: the order of the tokens does not matter.  For two lists of terminated
nodes that are permutations of each other, `PasswordFilter` has the same outcome
for every password. -/
theorem order_irrelevant (L L2 : List BADSTRING) (hperm : L.Perm L2)
    (hterm : ∀ n ∈ L, ∃ T, cstr n.String = .ok T)
    (AccountName FullName P : UNICODE_STRING) (SetOperation heapAllocOk : Bool) :
    PasswordFilter (.valid L) AccountName FullName P SetOperation heapAllocOk
      = PasswordFilter (.valid L2) AccountName FullName P SetOperation heapAllocOk := by
  have hterm2 : ∀ n ∈ L2, ∃ T, cstr n.String = .ok T :=
    fun n hn => hterm n (hperm.mem_iff.mpr hn)
  have hall : L.all (fun n => n.isBlank) = L2.all (fun n => n.isBlank) := by
    rw [Bool.eq_iff_iff]
    simp only [List.all_eq_true]
    exact ⟨fun h x hx => h x (hperm.mem_iff.mpr hx), fun h x hx => h x (hperm.mem_iff.mp hx)⟩
  have hany : ∀ h, L.any (fun n => n.rejects h) = L2.any (fun n => n.rejects h) := by
    intro h
    rw [Bool.eq_iff_iff]
    simp only [List.any_eq_true]
    exact ⟨fun ⟨x, hx, hr⟩ => ⟨x, hperm.mem_iff.mp hx, hr⟩,
      fun ⟨x, hx, hr⟩ => ⟨x, hperm.mem_iff.mpr hx, hr⟩⟩
  have hscan : ∀ pc, scanBlacklist pc L = scanBlacklist pc L2 := by
    intro pc
    rw [scanBlacklist_terminated pc L hterm, scanBlacklist_terminated pc L2 hterm2, hall]
    cases cstr pc with
    | error e => rfl
    | ok h => simp only [hany h]
  unfold PasswordFilter
  simp only [hscan]

/-- C15 on the tokens "xyz" and "abc" in both orders and the password "abcd". -/
theorem order_irrelevant_witness :
    PasswordFilter (.valid [node 32 (wstr "xyz"), node 32 (wstr "abc")])
        (ustr "user") (ustr "User") (ustr "abcd") false true
      = PasswordFilter (.valid [node 32 (wstr "abc"), node 32 (wstr "xyz")])
        (ustr "user") (ustr "User") (ustr "abcd") false true :=
  order_irrelevant [node 32 (wstr "xyz"), node 32 (wstr "abc")]
    [node 32 (wstr "abc"), node 32 (wstr "xyz")] (List.Perm.swap _ _ _)
    (by
      intro n hn
      simp only [List.mem_cons, List.mem_singleton, List.not_mem_nil, or_false] at hn
      rcases hn with rfl | rfl
      · exact ⟨wstr "xyz", by decide⟩
      · exact ⟨wstr "abc", by decide⟩)
    (ustr "user") (ustr "User") (ustr "abcd") false true

/-! ## The erasure of the working copy -/

/-- The case-folding loop keeps the size of the buffer and leaves every NUL in it
in place. -/
theorem lowerLoop_keeps_zero : ∀ (fuel k : Nat) (buf out : List Nat),
    lowerLoop fuel k buf = .ok out →
    out.length = buf.length ∧ ∀ i : Nat, buf[i]? = some 0 → out[i]? = some 0 := by
  intro fuel
  induction fuel with
  | zero => intro k buf out h; simp [lowerLoop] at h
  | succ fuel ih =>
    intro k buf out h
    rw [lowerLoop] at h
    cases hw : wcslen buf with
    | error e => rw [hw] at h; cases h
    | ok len =>
      rw [hw] at h
      simp only [] at h
      split at h
      · cases hget : buf[k]? with
        | none => rw [hget] at h; cases h
        | some c =>
          rw [hget] at h
          simp only [] at h
          obtain ⟨hl, hz⟩ := ih (k + 1) _ out h
          refine ⟨by rw [hl, List.length_set], ?_⟩
          intro i hi
          apply hz
          rw [List.getElem?_set]
          by_cases hki : k = i
          · subst hki
            rw [hget] at hi
            have hc : c = 0 := Option.some.inj hi
            have hk : k < buf.length := by
              rcases List.getElem?_eq_some_iff.mp hget with ⟨hlt, _⟩
              exact hlt
            simp [hc, hk, towlower_zero]
          · simp [hki, hi]
      · cases h
        exact ⟨rfl, fun i hi => hi⟩

/-- After `SecureZeroMemory` over the characters of the password the whole working
copy is zero: the rest of the buffer was never anything else. -/
theorem SecureZeroMemory_copy (copied pc : List Nat) (n : Nat)
    (hlen : pc.length = copied.length)
    (hkeep : ∀ i : Nat, copied[i]? = some 0 → pc[i]? = some 0)
    (hrest : ∀ i : Nat, n ≤ i → i < copied.length → copied[i]? = some 0) :
    SecureZeroMemory pc n = List.replicate copied.length 0 := by
  rw [List.eq_replicate_iff]
  constructor
  · simp only [SecureZeroMemory, List.length_append, List.length_replicate, List.length_drop]
    omega
  · intro b hb
    simp only [SecureZeroMemory, List.mem_append] at hb
    rcases hb with hb | hb
    · exact List.eq_of_mem_replicate hb
    · obtain ⟨j, hj⟩ := List.mem_iff_getElem?.mp hb
      rw [List.getElem?_drop] at hj
      have hlt : n + j < pc.length := by
        rcases List.getElem?_eq_some_iff.mp hj with ⟨hlt, _⟩
        exact hlt
      have := hkeep (n + j) (hrest (n + j) (by omega) (by omega))
      rw [hj] at this
      exact Option.some.inj this

/-- C17: whenever a call of `PasswordFilter` returns and has released its working
copy, every element of the released buffer is zero; and for a well-formed call
against a list of terminated nodes the call does return, accept or reject, with
the zeroed buffer released.  When the allocation failed nothing is released. -/
theorem released_copy_is_zero (gBlacklistHead : Head)
    (AccountName FullName P : UNICODE_STRING) (SetOperation heapAllocOk : Bool) :
    (∀ o buf, PasswordFilter gBlacklistHead AccountName FullName P SetOperation heapAllocOk
        = .ok o → o.released = some buf →
        buf = List.replicate (P.MaximumLength / 2) 0)
    ∧ (∀ L, gBlacklistHead = .valid L → (∀ n ∈ L, ∃ T, cstr n.String = .ok T) →
        AccountName.Length ≤ 256 → P.Buffer ≠ [] → 0 ∉ P.Buffer →
        P.Length + 2 ≤ P.MaximumLength → P.MaximumLength < 2 ^ 16 →
        ∃ b, PasswordFilter gBlacklistHead AccountName FullName P SetOperation true
          = .ok { PasswordIsOK := b,
                  released := some (List.replicate (P.MaximumLength / 2) 0) }) := by
  have hfirst : ∀ (ok : Bool) o buf,
      PasswordFilter gBlacklistHead AccountName FullName P SetOperation ok = .ok o →
      o.released = some buf → buf = List.replicate (P.MaximumLength / 2) 0 := by
    intro ok o buf hret hrel
    unfold PasswordFilter at hret
    cases hacc : memcpy (List.replicate 128 0) AccountName.Buffer (AccountName.Length / 2) with
    | error e => rw [hacc] at hret; cases hret
    | ok c =>
      rw [hacc] at hret
      simp only [] at hret
      by_cases hok : ok = false
      · rw [if_pos hok] at hret
        cases hret
        cases hrel
      · rw [if_neg hok] at hret
        cases hcopy : memcpy (List.replicate (P.MaximumLength / 2) 0) P.Buffer
            (P.Length / 2) with
        | error e => rw [hcopy] at hret; cases hret
        | ok copied =>
          rw [hcopy] at hret
          simp only [] at hret
          cases hloop : lowerLoop (copied.length + 1) 0 copied with
          | error e => rw [hloop] at hret; cases hret
          | ok pc =>
            rw [hloop] at hret
            simp only [] at hret
            cases gBlacklistHead with
            | null => cases hret
            | freed => cases hret
            | valid nodes =>
              simp only [] at hret
              cases hscan : scanBlacklist pc nodes with
              | error e => rw [hscan] at hret; cases hret
              | ok b =>
                rw [hscan] at hret
                cases hret
                simp only [Option.some.injEq] at hrel
                obtain ⟨hl, hz⟩ := lowerLoop_keeps_zero _ _ _ _ hloop
                have hn : P.Length / 2 = P.Buffer.length := by
                  unfold UNICODE_STRING.Length; omega
                unfold memcpy at hcopy
                split at hcopy
                · rename_i hcond
                  cases hcopy
                  rw [hn] at hcond hrel
                  simp only [List.length_replicate] at hcond
                  have hclen : (List.take P.Buffer.length P.Buffer
                      ++ List.drop P.Buffer.length (List.replicate (P.MaximumLength / 2) 0)).length
                      = P.MaximumLength / 2 := by
                    simp; omega
                  rw [hn] at hl hz
                  have := SecureZeroMemory_copy _ pc P.Buffer.length hl hz (by
                    intro i hi hlt
                    rw [hclen] at hlt
                    rw [List.getElem?_append_right (by simp; omega)]
                    simp only [List.length_take, Nat.min_self, List.drop_replicate,
                      List.getElem?_replicate]
                    rw [if_pos (by omega)])
                  rw [hclen] at this
                  rw [← hrel, this]
                · cases hcopy
  refine ⟨hfirst heapAllocOk, ?_⟩
  intro L hL hterm hacc hne hnul hroom hmax
  subst hL
  have hvalid := PasswordFilter_valid L AccountName FullName P SetOperation hacc hne hnul hroom
    hmax
  have hscan := scanBlacklist_terminated (workingCopy P) L hterm
  rw [cstr_workingCopy P hnul] at hscan
  obtain ⟨b, hb⟩ : ∃ b, scanBlacklist (workingCopy P) L = .ok b := by
    rw [hscan]
    split
    · exact ⟨_, rfl⟩
    · exact ⟨_, rfl⟩
  rw [hb] at hvalid
  simp only [] at hvalid
  refine ⟨b, ?_⟩
  have hzero := hfirst true _ _ hvalid rfl
  rw [hvalid, hzero]

/-- C17 on the password "abcd" and the token "abc": the call rejects and releases
a buffer of five zeros. -/
theorem released_copy_is_zero_witness :
    ∃ b, PasswordFilter (.valid [node 32 (wstr "abc")]) (ustr "user") (ustr "User")
        (ustr "abcd") false true
      = .ok { PasswordIsOK := b, released := some [0, 0, 0, 0, 0] } :=
  (released_copy_is_zero (.valid [node 32 (wstr "abc")]) (ustr "user") (ustr "User")
    (ustr "abcd") false true).2 [node 32 (wstr "abc")] rfl
    (by
      intro n hn
      simp only [List.mem_singleton] at hn
      subst hn
      exact ⟨wstr "abc", by decide⟩)
    (by decide) (by decide) (by decide) (by decide) (by decide)

/-! ## Growing the blacklist, long passwords -/

/-- A rejection carries over from one list to another when the token loop carries
it over for every working copy. -/
theorem PasswordFilter_reject_mono (L L2 : List BADSTRING)
    (hscan : ∀ pc, scanBlacklist pc L = .ok false → scanBlacklist pc L2 = .ok false)
    (A F P : UNICODE_STRING) (S ok : Bool)
    (h : decision (PasswordFilter (.valid L) A F P S ok) = .ok false) :
    decision (PasswordFilter (.valid L2) A F P S ok) = .ok false := by
  unfold PasswordFilter at h ⊢
  cases hacc : memcpy (List.replicate 128 0) A.Buffer (A.Length / 2) with
  | error e => rw [hacc] at h; cases h
  | ok c =>
    rw [hacc] at h
    simp only [] at h ⊢
    by_cases hok : ok = false
    · rw [if_pos hok]; rfl
    · rw [if_neg hok] at h ⊢
      cases hcopy : memcpy (List.replicate (P.MaximumLength / 2) 0) P.Buffer (P.Length / 2) with
      | error e => rw [hcopy] at h; cases h
      | ok copied =>
        rw [hcopy] at h
        simp only [] at h ⊢
        cases hloop : lowerLoop (copied.length + 1) 0 copied with
        | error e => rw [hloop] at h; cases h
        | ok pc =>
          rw [hloop] at h
          simp only [] at h ⊢
          cases hs : scanBlacklist pc L with
          | error e => rw [hs] at h; cases h
          | ok b =>
            rw [hs] at h
            simp only [decision, Except.ok.injEq] at h
            rw [h] at hs
            rw [hscan pc hs]
            rfl

/-- The token loop rejects with a longer list of terminated nodes what it rejects
with a list whose tokens all occur in the longer one. -/
theorem scanBlacklist_mono (pc : List Nat) (L L2 : List BADSTRING)
    (hsub : ∀ n ∈ L, ∃ m ∈ L2, cstr m.String = cstr n.String)
    (hterm : ∀ m ∈ L2, ∃ T, cstr m.String = .ok T)
    (h : scanBlacklist pc L = .ok false) : scanBlacklist pc L2 = .ok false := by
  have hterm1 : ∀ n ∈ L, ∃ T, cstr n.String = .ok T := by
    intro n hn
    obtain ⟨m, hm, hmn⟩ := hsub n hn
    obtain ⟨T, hT⟩ := hterm m hm
    exact ⟨T, by rw [← hmn, hT]⟩
  rw [scanBlacklist_terminated pc L hterm1] at h
  rw [scanBlacklist_terminated pc L2 hterm]
  by_cases hall : L.all (fun n => n.isBlank) = true
  · rw [if_pos hall] at h; cases h
  · rw [if_neg hall] at h
    cases hc : cstr pc with
    | error e => rw [hc] at h; cases h
    | ok hay =>
      rw [hc] at h
      simp only [Except.ok.injEq, Bool.not_eq_false'] at h
      obtain ⟨n, hn, hrej⟩ := List.any_eq_true.mp h
      obtain ⟨m, hm, hmn⟩ := hsub n hn
      have hrej2 : m.rejects hay = true := by
        unfold BADSTRING.rejects at hrej ⊢
        rw [hmn]; exact hrej
      have hany : L2.any (fun n => n.rejects hay) = true :=
        List.any_eq_true.mpr ⟨m, hm, hrej2⟩
      have hall2 : ¬ (L2.all (fun n => n.isBlank) = true) := by
        intro hb
        rw [all_blank_none_rejects hay L2 hb] at hany
        cases hany
      rw [if_neg hall2]
      simp only [hany, Bool.not_true]

/-- The nodes that the byte loop builds are terminated and hold at most `MAX - 1`
characters. -/
theorem readLoop_terminated (MAX : Nat) (hMAX : 0 < MAX) (C : List Nat) (allocs : Option Nat) :
    ∀ n ∈ readLoop MAX C allocs (zeroNode MAX) 0,
      ∃ T, cstr n.String = .ok T ∧ T.length ≤ MAX - 1 := by
  intro n hn
  rw [zeroNode_eq] at hn
  obtain ⟨T, rfl, hlen, hgood⟩ := readLoop_tokens MAX C allocs [] (by simp) (by simp) n hn
  have hnul : 0 ∉ T := fun h0 => by
    have := (hgood 0 h0).1
    omega
  exact ⟨T, cstr_node MAX T hnul (by omega), hlen⟩

/-- C21: adding tokens never turns a rejection into an acceptance.  When every
token of `L` also occurs in the list `L2` of terminated nodes and `PasswordFilter`
rejects a password against `L`, it rejects the password against `L2`. -/
theorem more_tokens_keep_rejection (L L2 : List BADSTRING)
    (hsub : ∀ n ∈ L, ∃ m ∈ L2, cstr m.String = cstr n.String)
    (hterm : ∀ m ∈ L2, ∃ T, cstr m.String = .ok T)
    (AccountName FullName P : UNICODE_STRING) (SetOperation heapAllocOk : Bool)
    (hrej : decision (PasswordFilter (.valid L) AccountName FullName P SetOperation
      heapAllocOk) = .ok false) :
    decision (PasswordFilter (.valid L2) AccountName FullName P SetOperation heapAllocOk)
      = .ok false :=
  PasswordFilter_reject_mono L L2 (fun pc h => scanBlacklist_mono pc L L2 hsub hterm h)
    AccountName FullName P SetOperation heapAllocOk hrej

/-- C21 on the password "abcd": rejected against the token "abc", hence against the
tokens "xyz", "abc". -/
theorem more_tokens_keep_rejection_witness :
    decision (PasswordFilter (.valid [node 32 (wstr "xyz"), node 32 (wstr "abc")])
        (ustr "user") (ustr "User") (ustr "abcd") false true) = .ok false :=
  more_tokens_keep_rejection [node 32 (wstr "abc")]
    [node 32 (wstr "xyz"), node 32 (wstr "abc")]
    (by
      intro n hn
      simp only [List.mem_singleton] at hn
      subst hn
      exact ⟨node 32 (wstr "abc"), by simp, rfl⟩)
    (by
      intro m hm
      simp only [List.mem_cons, List.mem_singleton, List.not_mem_nil, or_false] at hm
      rcases hm with rfl | rfl
      · exact ⟨wstr "xyz", by decide⟩
      · exact ⟨wstr "abc", by decide⟩)
    (ustr "user") (ustr "User") (ustr "abcd") false true (by decide)

/-- C22: a password of more than `2 * (MAX - 1)` characters is accepted against
every list that the byte loop builds, whatever tokens the password contains: no
token of at most `MAX - 1` characters makes up half of it. -/
theorem long_password_accepted (MAX : Nat) (C : List Nat) (allocs : Option Nat)
    (AccountName FullName P : UNICODE_STRING) (SetOperation : Bool)
    (hMAX : 0 < MAX) (hlong : 2 * (MAX - 1) < P.Buffer.length) (hnul : 0 ∉ P.Buffer)
    (hroom : P.Length + 2 ≤ P.MaximumLength) (hmax : P.MaximumLength < 2 ^ 16)
    (hacc : AccountName.Length ≤ 256) :
    decision (PasswordFilter (.valid (readLoop MAX C allocs (zeroNode MAX) 0))
        AccountName FullName P SetOperation true) = .ok true := by
  have hne : P.Buffer ≠ [] := by
    intro h; rw [h] at hlong; simp at hlong
  have hnodes := readLoop_terminated MAX hMAX C allocs
  have hterm : ∀ n ∈ readLoop MAX C allocs (zeroNode MAX) 0, ∃ T, cstr n.String = .ok T :=
    fun n hn => (hnodes n hn).imp (fun _ h => h.1)
  have hany : (readLoop MAX C allocs (zeroNode MAX) 0).any
      (fun n => n.rejects (foldButLast P.Buffer)) = false := by
    rw [List.any_eq_false]
    intro n hn
    obtain ⟨T, hT, hlen⟩ := hnodes n hn
    have hratio : ratioAtLeastHalf T.length (foldButLast P.Buffer).length = false := by
      rw [foldButLast_length]
      have h1 : P.Buffer.length ≠ 0 := by omega
      have h2 : ¬ (P.Buffer.length ≤ 2 * T.length) := by omega
      simp [ratioAtLeastHalf, h1, h2]
    simp [BADSTRING.rejects, hT, hratio]
  have hscan : scanBlacklist (workingCopy P) (readLoop MAX C allocs (zeroNode MAX) 0)
      = .ok true := by
    rw [scanBlacklist_terminated _ _ hterm, cstr_workingCopy P hnul]
    simp only [hany, Bool.not_false]
    split <;> rfl
  rw [PasswordFilter_valid _ AccountName FullName P SetOperation hacc hne hnul hroom hmax,
    hscan]
  rfl

/-- C22 on a buffer of 4 characters, the file "abc" and the password "abcabca" of
seven characters, which holds the token twice. -/
theorem long_password_accepted_witness :
    decision (PasswordFilter (.valid (readLoop 4 [0x61, 0x62, 0x63, 0x0A] none (zeroNode 4) 0))
        (ustr "user") (ustr "User") (ustr "abcabca") false true) = .ok true :=
  long_password_accepted 4 [0x61, 0x62, 0x63, 0x0A] none (ustr "user") (ustr "User")
    (ustr "abcabca") false (by decide) (by decide) (by decide) (by decide) (by decide)
    (by decide)

end PassFiltEx
